import Mathlib

/-!
Verification development for the `ssscua` dataset recorder
(`src/datagrab/datagrabber_69.py`) and its offline validator
(`src/datagrab/validate_recording.py`).

Timestamps are modelled as rationals (the Python code uses floats; all the
checked logic is order comparisons with the literal tolerance `1e-6`, which
is exact arithmetic here).  CSV cell contents for the integer mouse fields
are modelled as `Option String` (`none` = the column is absent, `some ""` =
an empty cell), with Python's `str`/`int` conversions modelled explicitly.
-/

namespace Datagrab

/-! ### Decimal serialization and parsing (models Python `str`/`int`) -/

/-- Numeric value of a decimal digit character. -/
def digVal (c : Char) : Nat := c.toNat - 48

/-- Value of a big-endian list of decimal digit characters. -/
def decDigitsVal (cs : List Char) : Nat :=
  cs.foldl (fun a c => 10 * a + digVal c) 0

/-- Parses a nonempty all-digit character list, as Python `int` does after
sign stripping; anything else fails. -/
def decDigits? (cs : List Char) : Option Nat :=
  if cs ≠ [] ∧ cs.all Char.isDigit then some (decDigitsVal cs) else none

/-- Big-endian decimal digit characters of a natural number, with explicit
fuel (`n + 1` is always enough) so the definition is structurally recursive
and kernel-evaluable. -/
def natToCharsAux : Nat → Nat → List Char
  | 0, _ => []
  | fuel + 1, n =>
    if n < 10 then [Char.ofNat (48 + n)]
    else natToCharsAux fuel (n / 10) ++ [Char.ofNat (48 + n % 10)]

/-- Big-endian decimal digit characters of a natural number. -/
def natToChars (n : Nat) : List Char := natToCharsAux (n + 1) n

/-- Decimal rendering of a natural number (Python `str` on a nonnegative int). -/
def natToStr (n : Nat) : String := String.mk (natToChars n)

/-- Decimal rendering of an integer, as Python `str(int)` produces it. -/
def intToStr (i : Int) : String :=
  if i < 0 then String.mk ('-' :: natToChars i.natAbs) else natToStr i.natAbs

/-- Whitespace characters stripped by Python `str.strip()` (ASCII range). -/
def isPyWS (c : Char) : Bool :=
  c == ' ' || c == '\t' || c == '\n' || c == '\r' || c == '\x0b' || c == '\x0c'

/-- Strip leading and trailing whitespace, as Python `str.strip()`. -/
def trimChars (cs : List Char) : List Char :=
  ((cs.dropWhile isPyWS).reverse.dropWhile isPyWS).reverse

/-- Sign handling of Python `int(str)` after whitespace stripping. -/
def pyIntCore : List Char → Option Int
  | [] => none
  | c :: rest =>
    if c = '-' then (decDigits? rest).map (fun n => -(n : Int))
    else if c = '+' then (decDigits? rest).map (fun n => (n : Int))
    else (decDigits? (c :: rest)).map (fun n => (n : Int))

/-- Python `int(str)`: strip whitespace, optional sign, decimal digits;
`none` models the `ValueError` raised on any other input. -/
def pyInt (s : String) : Option Int := pyIntCore (trimChars s.data)

/-! ### Event and SafeDeque (datagrabber_69.py lines 22-49) -/

/-- Models `Event(ts, etype, payload)`; the optional fields model the keys the
listeners put into the payload dict (`none` = key absent). -/
structure Event where
  ts : ℚ
  etype : String
  x : Option Int := none
  y : Option Int := none
  button : Option String := none
  action : Option String := none
  scroll_dx : Option Int := none
  scroll_dy : Option Int := none
  key : Option String := none
  key_code : Option Int := none
  modifiers : Option String := none
deriving DecidableEq

/-- Models `SafeDeque.pop_all_upto(ts_cutoff)`: pop from the front while the
head's timestamp is `≤ ts_cutoff`; returns (popped, remaining deque). -/
def pop_all_upto (ts_cutoff : ℚ) : List Event → List Event × List Event
  | [] => ([], [])
  | e :: rest =>
    if e.ts ≤ ts_cutoff then
      let res := pop_all_upto ts_cutoff rest
      (e :: res.1, res.2)
    else ([], e :: rest)

/-- Models `SafeDeque.drain_all()`: everything out, deque cleared. -/
def drain_all (dq : List Event) : List Event × List Event := (dq, [])

/-- Python `s.startswith(p)`. -/
def pyStartswith (s p : String) : Bool := p.data.isPrefixOf s.data

/-! ### The CSV log rows (datagrabber_69.py `_open_csv`, lines 199-207) -/

/-- One row of `events.csv`, with the recorder's field names.  Integer-valued
cells are carried as decimal strings, as the CSV stores them (`none` = cell
left unset, which the csv writer stores as an empty cell). -/
structure Row where
  row_type : String
  frame_id : Int
  time_s : ℚ
  event_type : String
  frame_path : String := ""
  x : Option String := none
  y : Option String := none
  dx : Option String := none
  dy : Option String := none
  key : Option String := none
  key_code : Option String := none
  mouse_button : Option String := none
  action : Option String := none
  scroll_dx : Option String := none
  scroll_dy : Option String := none
  modifiers : Option String := none
deriving DecidableEq

/-- Python `round(q, 6)` on the session-relative times.  (Exact half-microsecond
ties round half-up here where Python rounds half-to-even; no checked claim
depends on tie behaviour.) -/
def round6 (q : ℚ) : ℚ := ((⌊q * 1000000 + 1/2⌋ : ℤ) : ℚ) / 1000000

/-- Python `f"{n:06d}"`. -/
def zeroPad6 (n : Int) : String :=
  if n < 0 then
    let s := natToChars n.natAbs
    String.mk ('-' :: (List.replicate (6 - (s.length + 1)) '0' ++ s))
  else
    let s := natToChars n.natAbs
    String.mk (List.replicate (6 - s.length) '0' ++ s)

/-- Relative path of a frame image: `frames/000001.png` etc. -/
def framePath (fid : Int) : String := "frames/" ++ zeroPad6 fid ++ ".png"

/-- The frame row the recorder appends after saving a frame image. -/
def frameRow (fid : Int) (t : ℚ) : Row :=
  { row_type := "frame", frame_id := fid, time_s := round6 t, event_type := "frame",
    frame_path := framePath fid }

/-! ### Recorder.record (datagrabber_69.py lines 218-363) -/

/-- Writing one drained event row (lines 280-305, and the identical tail-flush
block at lines 325-350): mouse events get `(x, y)` plus `(dx, dy)` relative to
the running recorded mouse position (which is updated), key events get the key
fields; the row carries the attributed `frame_id`. -/
def writeEventRow (fid : Int) (lastPos : Option (Int × Int)) (ev : Event) :
    Row × Option (Int × Int) :=
  let base : Row :=
    { row_type := "event", frame_id := fid, time_s := round6 ev.ts, event_type := ev.etype }
  if pyStartswith ev.etype "mouse" then
    let x := ev.x.getD (-1)
    let y := ev.y.getD (-1)
    let dx := match lastPos with | none => 0 | some p => x - p.1
    let dy := match lastPos with | none => 0 | some p => y - p.2
    ({ base with
        x := some (intToStr x), y := some (intToStr y),
        dx := some (intToStr dx), dy := some (intToStr dy),
        mouse_button := ev.button, action := ev.action,
        scroll_dx := ev.scroll_dx.map intToStr, scroll_dy := ev.scroll_dy.map intToStr },
      some (x, y))
  else if pyStartswith ev.etype "key" then
    ({ base with
        key := ev.key, key_code := ev.key_code.map intToStr,
        modifiers := ev.modifiers }, lastPos)
  else (base, lastPos)

/-- Writing a batch of drained events in order, threading the running mouse
position through. -/
def writeEvents (fid : Int) : Option (Int × Int) → List Event → List Row × Option (Int × Int)
  | lp, [] => ([], lp)
  | lp, e :: es =>
    let r1 := writeEventRow fid lp e
    let rs := writeEvents fid r1.2 es
    (r1.1 :: rs.1, rs.2)

/-- One iteration of the capture loop, abstracted over real time: `arrivals`
are the events the listener threads appended to the buffer since the previous
tick, `t` is the boundary timestamp `t_boundary_rel` of this tick's capture. -/
structure Tick where
  arrivals : List Event
  t : ℚ
deriving DecidableEq

/-- The loop state of `Recorder.record`: the shared buffer's contents, the last
committed frame id, the running recorded mouse position, and the rows written
so far. -/
structure RecState where
  buffer : List Event
  frame_id : Int
  lastPos : Option (Int × Int)
  rows : List Row
deriving DecidableEq

/-- One tick of the loop (lines 262-319): capture at boundary `tk.t`, drain
everything with timestamp `≤ tk.t`, append those event rows attributed to the
previously committed `frame_id`, then append the new frame row with id
`frame_id + 1` and advance the committed id. -/
def doTick (s : RecState) (tk : Tick) : RecState :=
  let buf := s.buffer ++ tk.arrivals
  let res := pop_all_upto tk.t buf
  let next_frame_id := s.frame_id + 1
  let wr := writeEvents s.frame_id s.lastPos res.1
  { buffer := res.2, frame_id := next_frame_id, lastPos := wr.2,
    rows := s.rows ++ wr.1 ++ [frameRow next_frame_id tk.t] }

/-- State right after the first frame is captured and written (lines 241-259):
frame 1 is saved and its row appended before the loop runs at all. -/
def initState (t1 : ℚ) : RecState :=
  { buffer := [], frame_id := 1, lastPos := none, rows := [frameRow 1 t1] }

/-- `Recorder.record`, as a function of the tick trace: the first frame row,
then the loop, then the `drain_all` tail flush (lines 325-350) attributing all
events still buffered at shutdown (`tailArrivals` = events that arrived after
the last boundary) to the final committed frame id. -/
def record (t1 : ℚ) (ticks : List Tick) (tailArrivals : List Event) : List Row :=
  let s := ticks.foldl doTick (initState t1)
  let drained := (drain_all (s.buffer ++ tailArrivals)).1
  s.rows ++ (writeEvents s.frame_id s.lastPos drained).1

/-! ### Validator data model (validate_recording.py lines 38-89) -/

/-- Models `FrameRow(fid, t, path)`. -/
structure FrameRow where
  fid : Int
  t : ℚ
  path : String := ""
deriving DecidableEq

/-- Models `EventRow(fid, t, etype, payload)`; the payload fields are the raw
CSV cell strings (`none` = column absent, `some ""` = empty cell). -/
structure EventRow where
  fid : Int
  t : ℚ
  etype : String
  x : Option String := none
  y : Option String := none
  dx : Option String := none
  dy : Option String := none
  key : Option String := none
  key_code : Option String := none
  mouse_button : Option String := none
  action : Option String := none
  scroll_dx : Option String := none
  scroll_dy : Option String := none
  modifiers : Option String := none
deriving DecidableEq

def toFrameRow (r : Row) : FrameRow :=
  { fid := r.frame_id, t := r.time_s, path := r.frame_path }

def toEventRow (r : Row) : EventRow :=
  { fid := r.frame_id, t := r.time_s, etype := r.event_type,
    x := r.x, y := r.y, dx := r.dx, dy := r.dy,
    key := r.key, key_code := r.key_code, mouse_button := r.mouse_button,
    action := r.action, scroll_dx := r.scroll_dx, scroll_dy := r.scroll_dy,
    modifiers := r.modifiers }

/-- The event rows of a log, in log order (the validator's pre-sort view). -/
def eventRowsOf (rows : List Row) : List EventRow :=
  (rows.filter (fun r => r.row_type == "event")).map toEventRow

/-- All input events of a session, in arrival order: the per-tick arrivals
followed by the post-final-tick arrivals. -/
def sessionEvents (ticks : List Tick) (tailArrivals : List Event) : List Event :=
  (ticks.map (fun tk => tk.arrivals)).flatten ++ tailArrivals

/-- The session-wide mouse-delta invariant of a recorded event-row list,
relative to the running recorded mouse position: every mouse row stores
serialized integer `(x, y)` and `(dx, dy)` cells whose deltas are the
coordinate difference from the immediately preceding recorded mouse event
(`(0,0)` for the first), and the running position threads through mouse rows
only. -/
def mouseDeltaInv : Option (Int × Int) → List EventRow → Prop
  | _, [] => True
  | lp, ev :: rest =>
    if pyStartswith ev.etype "mouse" then
      ∃ x y : Int, ev.x = some (intToStr x) ∧ ev.y = some (intToStr y) ∧
        ev.dx = some (intToStr (match lp with | none => 0 | some p => x - p.1)) ∧
        ev.dy = some (intToStr (match lp with | none => 0 | some p => y - p.2)) ∧
        mouseDeltaInv (some (x, y)) rest
    else mouseDeltaInv lp rest

/-- Number of mouse events in an event-row list. -/
def countMouse (evs : List EventRow) : Nat :=
  (evs.filter (fun ev => pyStartswith ev.etype "mouse")).length

/-- Sort key of `frames.sort(key=lambda r: r.fid)`. -/
def frLe (a b : FrameRow) : Prop := a.fid ≤ b.fid

instance : DecidableRel frLe := fun a b => inferInstanceAs (Decidable (a.fid ≤ b.fid))

/-- Sort key of `events.sort(key=lambda r: (r.fid, r.t))` (lexicographic). -/
def evLe (a b : EventRow) : Prop := a.fid < b.fid ∨ (a.fid = b.fid ∧ a.t ≤ b.t)

instance : DecidableRel evLe := fun a b =>
  inferInstanceAs (Decidable (a.fid < b.fid ∨ (a.fid = b.fid ∧ a.t ≤ b.t)))

/-- Models `load_csv`: split rows by `row_type`, then the two stable sorts
(`insertionSort` is stable, like Python's `list.sort`). -/
def load_csv (rows : List Row) : List FrameRow × List EventRow :=
  let frames := (rows.filter (fun r => r.row_type == "frame")).map toFrameRow
  let events := (rows.filter (fun r => r.row_type == "event")).map toEventRow
  (List.insertionSort frLe frames, List.insertionSort evLe events)

/-- The validator's error classes, with the data interpolated into the
corresponding message string. -/
inductive VErr
  | F01
  | F02 (expected : Int) (seen : Int)
  | F03 (fid1 : Int) (t1 : ℚ) (fid2 : Int) (t2 : ℚ)
  | E00
  | E01 (fid : Int) (last : Int)
  | E02 (t : ℚ) (fid : Int) (tnext : ℚ)
  | E03 (t : ℚ) (fid : Int) (tcur : ℚ)
  | M01 (t : ℚ) (dx : Int) (dy : Int) (edx : Int) (edy : Int)
deriving DecidableEq

/-- The validator's warning classes. -/
inductive VWarn
  | W10 (tev : ℚ) (tf1 : ℚ)
deriving DecidableEq

/-- The literal comparison tolerance `1e-6` used by the validator. -/
def eps6 : ℚ := 1 / 1000000

/-! ### check_frames (validate_recording.py lines 92-110) -/

/-- The frame-id contiguity loop: `enumerate(frames, start=1)`, breaking at the
first mismatch. -/
def fidErrs : Int → List FrameRow → List VErr
  | _, [] => []
  | i, fr :: rest => if fr.fid ≠ i then [.F02 i fr.fid] else fidErrs (i + 1) rest

/-- The frame-time monotonicity loop over consecutive pairs, breaking at the
first violation. -/
def monoErrs : List FrameRow → List VErr
  | a :: b :: rest =>
    if b.t < a.t - eps6 then [.F03 a.fid a.t b.fid b.t] else monoErrs (b :: rest)
  | _ => []

/-- Models `check_frames`. -/
def check_frames (frames : List FrameRow) : List VErr :=
  if frames.isEmpty then [.F01]
  else fidErrs 1 frames ++ monoErrs frames

/-! ### check_events_vs_frames (validate_recording.py lines 113-147) -/

/-- Models the dict comprehension `{fr.fid: fr.t for fr in frames}` (later
duplicates overwrite earlier ones); `none` models a `KeyError` on access. -/
def frameTimes (frames : List FrameRow) (fid : Int) : Option ℚ :=
  frames.foldl (fun acc fr => if fr.fid = fid then some fr.t else acc) none

/-- Models `frames[-1].fid` (only evaluated on nonempty lists). -/
def lastFid (frames : List FrameRow) : Int := (frames.getLastD { fid := 0, t := 0 }).fid

/-- The per-event body of the `check_events_vs_frames` loop.  `.error` models
the uncaught `KeyError` raised by `frame_times[...]` when the frame id is
absent from the dict. -/
def cevfEvent (last_fid : Int) (ft : Int → Option ℚ) (ev : EventRow) :
    Except Unit (List VErr × List VWarn) :=
  if ev.fid < 1 ∨ ev.fid > last_fid then .ok ([.E01 ev.fid last_fid], [])
  else
    match (if ev.fid < last_fid then
        (ft (ev.fid + 1)).map
          (fun tn => if ev.t > tn + eps6 then [VErr.E02 ev.t ev.fid tn] else [])
      else some []) with
    | none => .error ()
    | some e2 =>
      match ft ev.fid with
      | none => .error ()
      | some t_cur =>
        let e3 := if ev.fid > 1 ∧ ev.t < t_cur - eps6 then [VErr.E03 ev.t ev.fid t_cur] else []
        let w := if ev.fid = 1 ∧ ev.t < t_cur - eps6 then [VWarn.W10 ev.t t_cur] else []
        .ok (e2 ++ e3, w)

/-- One step of the `for ev in events` loop, accumulating errors and warnings;
an exception aborts the rest of the loop. -/
def cevfStep (last_fid : Int) (ft : Int → Option ℚ)
    (acc : Except Unit (List VErr × List VWarn)) (ev : EventRow) :
    Except Unit (List VErr × List VWarn) :=
  match acc with
  | .error e => .error e
  | .ok ew =>
    match cevfEvent last_fid ft ev with
    | .error e => .error e
    | .ok ew2 => .ok (ew.1 ++ ew2.1, ew.2 ++ ew2.2)

/-- Models `check_events_vs_frames`. -/
def check_events_vs_frames (frames : List FrameRow) (events : List EventRow) :
    Except Unit (List VErr × List VWarn) :=
  if frames.isEmpty then .ok ([.E00], [])
  else events.foldl (cevfStep (lastFid frames) (frameTimes frames)) (.ok ([], []))

/-! ### check_mouse_deltas (validate_recording.py lines 150-174) -/

/-- Models `int(cell) if cell not in (None, "") else None`; `.error` models the
exception a non-integer cell raises inside the `try`. -/
def cellInt (f : Option String) : Except Unit (Option Int) :=
  match f with
  | none => .ok none
  | some s =>
    if s = "" then .ok none
    else match pyInt s with
      | some n => .ok (some n)
      | none => .error ()

/-- One step of the `for ev in events` loop of `check_mouse_deltas`, over the
state `(errs, n_checked, last_pos)`: non-mouse events are skipped; a parse
failure (the `except ... continue`) or a missing/empty field skips the event
(no error, no count, no last-position update); otherwise the deltas are
recomputed against the running last position and a mismatch yields `M01`. -/
def cmdStep (acc : List VErr × Nat × Option (Int × Int)) (ev : EventRow) :
    List VErr × Nat × Option (Int × Int) :=
  if pyStartswith ev.etype "mouse" then
    match cellInt ev.x with
    | .ok (some x) =>
      match cellInt ev.y with
      | .ok (some y) =>
        match cellInt ev.dx with
        | .ok (some dx) =>
          match cellInt ev.dy with
          | .ok (some dy) =>
            let edx := match acc.2.2 with | none => 0 | some p => x - p.1
            let edy := match acc.2.2 with | none => 0 | some p => y - p.2
            let errs1 :=
              if dx ≠ edx ∨ dy ≠ edy then acc.1 ++ [.M01 ev.t dx dy edx edy] else acc.1
            (errs1, acc.2.1 + 1, some (x, y))
          | _ => acc
        | _ => acc
      | _ => acc
    | _ => acc
  else acc

/-- Models `check_mouse_deltas`: returns `(errs, n_checked)`. -/
def check_mouse_deltas (events : List EventRow) : List VErr × Nat :=
  let r := events.foldl cmdStep ([], 0, none)
  (r.1, r.2.1)

/-- A CSV cell that `check_mouse_deltas` cannot use: missing column, empty
cell, or not parseable as an integer. -/
def fieldBad (f : Option String) : Prop :=
  match f with
  | none => True
  | some s => s = "" ∨ pyInt s = none

instance : DecidablePred fieldBad
  | none => isTrue trivial
  | some s => inferInstanceAs (Decidable (s = "" ∨ pyInt s = none))

/-! ### Recorder._parse_stop_key (datagrabber_69.py lines 99-123) -/

/-- The key objects `_parse_stop_key` can return (`pynput` key values). -/
inductive PKey
  | esc
  | enter
  | space
  | f (n : Nat)
  | char (c : Char)
deriving DecidableEq

/-- Modelled from the spec: the input-hook collaborator (`pynput.keyboard.Key`,
not part of this repository) exposes the named function keys `f1..f24` (§4.2,
§6); this is the `hasattr(keyboard.Key, f"f{n}")` test. -/
def keyboardHasF (n : Nat) : Bool := decide (1 ≤ n ∧ n ≤ 24)

/-- Python `name.strip().upper()` (ASCII case map). -/
def pyStripUpper (s : String) : String := String.mk ((trimChars s.data).map Char.toUpper)

/-- Models `_parse_stop_key`, total by construction: base names, `F<digits>`
in range with the collaborator attribute present, a single character
(lowercased), and otherwise the fixed default `keyboard.Key.f10`. -/
def parse_stop_key (raw : String) : PKey :=
  let name := pyStripUpper raw
  if name = "ESC" then .esc
  else if name = "ENTER" then .enter
  else if name = "RETURN" then .enter
  else if name = "SPACE" then .space
  else if pyStartswith name "F" ∧ (name.data.drop 1) ≠ [] ∧
      (name.data.drop 1).all Char.isDigit ∧
      (1 ≤ decDigitsVal (name.data.drop 1) ∧ decDigitsVal (name.data.drop 1) ≤ 24 ∧
        keyboardHasF (decDigitsVal (name.data.drop 1))) then
    .f (decDigitsVal (name.data.drop 1))
  else
    match name.data.map Char.toLower with
    | [c] => .char c
    | _ => .f 10

/-- The stop-key names `_parse_stop_key` recognizes (applied to the
stripped-and-uppercased name): the four base names, `F` followed by digits
whose value is in `1..24`, or a single character. -/
def recognizedStopKey (name : String) : Prop :=
  name = "ESC" ∨ name = "ENTER" ∨ name = "RETURN" ∨ name = "SPACE" ∨
  (pyStartswith name "F" = true ∧ name.data.drop 1 ≠ [] ∧
    (name.data.drop 1).all Char.isDigit = true ∧
    1 ≤ decDigitsVal (name.data.drop 1) ∧ decDigitsVal (name.data.drop 1) ≤ 24) ∨
  name.data.length = 1

instance (name : String) : Decidable (recognizedStopKey name) := by
  unfold recognizedStopKey
  infer_instance

/-- The contiguous id sequence `i, i+1, ..., i+n-1`. -/
def idsFrom (i : Int) : Nat → List Int
  | 0 => []
  | n + 1 => i :: idsFrom (i + 1) n

/-- The frame ids carried by the `row_type = "frame"` rows of a log, in log
order. -/
def logFrameIds (rows : List Row) : List Int :=
  (rows.filter (fun r => r.row_type == "frame")).map (fun r => r.frame_id)

/-- Recognizer for the `F02` (frame-id contiguity) error class. -/
def isF02 : VErr → Bool
  | .F02 _ _ => true
  | _ => false

/-- A concrete sample input-event batch: two mouse moves around a key press. -/
def sampleArrivals : List Event :=
  [{ ts := 1, etype := "mouse_move", x := some 3, y := some 4 },
    { ts := 2, etype := "key_down", key := some "a" },
    { ts := 3, etype := "mouse_move", x := some 7, y := some 2 }]

/-- A concrete sample tick carrying `sampleArrivals`, with boundary 4. -/
def sampleTick : Tick := { arrivals := sampleArrivals, t := 4 }

/-! ### The validator's main (validate_recording.py lines 242-304) -/

/-- What `main` reports: the process exit status (`exit(2)` on any error,
normal return = 0), the collected errors, and the collected warnings. -/
structure VResult where
  exitCode : Nat
  errs : List VErr
  warns : List VWarn
deriving DecidableEq

/-- Models `main` on a default invocation (no `--check-images`): `none` models
a missing `events.csv` (print a message and return, exit status 0); otherwise
run the three checks in order, pooling errors, and exit 2 iff any error was
collected.  `.error` models an uncaught exception escaping `main`. -/
def validator_main (input : Option (List Row)) : Except Unit VResult :=
  match input with
  | none => .ok { exitCode := 0, errs := [], warns := [] }
  | some rows =>
    let lc := load_csv rows
    let fErrs := check_frames lc.1
    match check_events_vs_frames lc.1 lc.2 with
    | .error e => .error e
    | .ok ew =>
      let m := check_mouse_deltas lc.2
      let allErrs := fErrs ++ ew.1 ++ m.1
      .ok { exitCode := if allErrs = [] then 0 else 2, errs := allErrs, warns := ew.2 }


/-! ### Supporting lemmas -/

lemma digitChar_isDigit {d : Nat} (h : d < 10) : (Char.ofNat (48 + d)).isDigit = true := by
  interval_cases d <;> decide

lemma digVal_digitChar {d : Nat} (h : d < 10) : digVal (Char.ofNat (48 + d)) = d := by
  interval_cases d <;> decide

lemma natToCharsAux_fuel_irrel (n : Nat) :
    ∀ fuel fuel', n < fuel → n < fuel' → natToCharsAux fuel n = natToCharsAux fuel' n := by
  induction n using Nat.strong_induction_on with
  | _ n ih =>
    intro fuel fuel' h h'
    cases fuel with
    | zero => omega
    | succ f =>
      cases fuel' with
      | zero => omega
      | succ f' =>
        simp only [natToCharsAux]
        by_cases h10 : n < 10
        · rw [if_pos h10, if_pos h10]
        · rw [if_neg h10, if_neg h10]
          have hlt : n / 10 < n := Nat.div_lt_self (by omega) (by omega)
          rw [ih (n / 10) hlt f f' (by omega) (by omega)]

/-- The usual unfolding equation for `natToChars`, independent of the fuel. -/
lemma natToChars_eq (n : Nat) :
    natToChars n =
      if n < 10 then [Char.ofNat (48 + n)]
      else natToChars (n / 10) ++ [Char.ofNat (48 + n % 10)] := by
  show natToCharsAux (n + 1) n = _
  simp only [natToCharsAux]
  by_cases h10 : n < 10
  · rw [if_pos h10, if_pos h10]
  · rw [if_neg h10, if_neg h10]
    have hd : n / 10 < n := Nat.div_lt_self (by omega) (by omega)
    rw [natToCharsAux_fuel_irrel (n / 10) n (n / 10 + 1) (by omega) (by omega)]
    rfl

lemma natToChars_ne_nil (n : Nat) : natToChars n ≠ [] := by
  rw [natToChars_eq]
  split
  · simp
  · simp

lemma natToChars_all_digits (n : Nat) : (natToChars n).all Char.isDigit = true := by
  induction n using Nat.strong_induction_on with
  | _ n ih =>
    rw [natToChars_eq]
    split
    · rename_i h
      simp [digitChar_isDigit h]
    · rename_i h
      rw [List.all_append]
      have h1 := ih (n / 10) (Nat.div_lt_self (by omega) (by omega))
      have h2 : (Char.ofNat (48 + n % 10)).isDigit = true :=
        digitChar_isDigit (Nat.mod_lt _ (by omega))
      simp [h1, h2]

lemma foldl_natToChars (n a : Nat) :
    (natToChars n).foldl (fun x c => 10 * x + digVal c) a =
      a * 10 ^ (natToChars n).length + n := by
  induction n using Nat.strong_induction_on generalizing a with
  | _ n ih =>
    rw [natToChars_eq]
    split
    · rename_i h
      simp [digVal_digitChar h]
      ring
    · rename_i h
      rw [List.foldl_append, ih (n / 10) (Nat.div_lt_self (by omega) (by omega)) a]
      simp [digVal_digitChar (Nat.mod_lt _ (by omega)), List.length_append]
      rw [pow_succ]
      have hdm : 10 * (n / 10) + n % 10 = n := by omega
      ring_nf
      omega

lemma decDigitsVal_natToChars (n : Nat) : decDigitsVal (natToChars n) = n := by
  unfold decDigitsVal
  rw [foldl_natToChars]
  simp

lemma decDigits?_natToChars (n : Nat) : decDigits? (natToChars n) = some n := by
  unfold decDigits?
  rw [if_pos ⟨natToChars_ne_nil n, natToChars_all_digits n⟩, decDigitsVal_natToChars]

lemma not_isPyWS_of_isDigit {c : Char} (h : c.isDigit = true) : isPyWS c = false := by
  unfold isPyWS
  have hne : ∀ w : Char, w.isDigit = false → c ≠ w := by
    intro w hw he
    rw [he, hw] at h
    exact Bool.false_ne_true h
  have h1 := hne ' ' (by decide)
  have h2 := hne '\t' (by decide)
  have h3 := hne '\n' (by decide)
  have h4 := hne '\r' (by decide)
  have h5 := hne '\x0b' (by decide)
  have h6 := hne '\x0c' (by decide)
  simp [h1, h2, h3, h4, h5, h6]

lemma dropWhile_eq_self_of_not {p : Char → Bool} :
    ∀ l : List Char, (∀ c ∈ l, p c = false) → l.dropWhile p = l := by
  intro l h
  cases l with
  | nil => rfl
  | cons a as =>
    rw [List.dropWhile_cons, h a (by simp)]
    simp

lemma trimChars_of_no_ws {cs : List Char} (h : ∀ c ∈ cs, isPyWS c = false) :
    trimChars cs = cs := by
  unfold trimChars
  rw [dropWhile_eq_self_of_not cs h]
  rw [dropWhile_eq_self_of_not cs.reverse (fun c hc => h c (List.mem_reverse.mp hc))]
  exact List.reverse_reverse cs

lemma natToChars_no_ws (n : Nat) : ∀ c ∈ natToChars n, isPyWS c = false := by
  intro c hc
  exact not_isPyWS_of_isDigit (by
    have := natToChars_all_digits n
    rw [List.all_eq_true] at this
    exact this c hc)

lemma natToChars_head_not_sign (n : Nat) :
    ∀ c cs, natToChars n = c :: cs → c ≠ '-' ∧ c ≠ '+' := by
  intro c cs h
  have hall := natToChars_all_digits n
  rw [h, List.all_cons, Bool.and_eq_true] at hall
  constructor
  · intro he; rw [he] at hall; exact absurd hall.1 (by decide)
  · intro he; rw [he] at hall; exact absurd hall.1 (by decide)

/-- Round-trip: the validator's `int(...)` parse recovers exactly the integer
the recorder serialized into the CSV. -/
lemma pyInt_intToStr (i : Int) : pyInt (intToStr i) = some i := by
  unfold pyInt intToStr
  split
  · rename_i hneg
    show pyIntCore (trimChars ('-' :: natToChars i.natAbs)) = some i
    have hno : ∀ c ∈ '-' :: natToChars i.natAbs, isPyWS c = false := by
      intro c hc
      rcases List.mem_cons.mp hc with h | h
      · rw [h]; decide
      · exact natToChars_no_ws _ c h
    rw [trimChars_of_no_ws hno]
    simp only [pyIntCore]
    rw [if_pos trivial, decDigits?_natToChars]
    simp [Int.natCast_natAbs, abs_of_neg hneg]
  · rename_i hpos
    show pyIntCore (trimChars (natToChars i.natAbs)) = some i
    rw [trimChars_of_no_ws (natToChars_no_ws _)]
    obtain ⟨c, cs, hc⟩ : ∃ c cs, natToChars i.natAbs = c :: cs := by
      cases h : natToChars i.natAbs with
      | nil => exact absurd h (natToChars_ne_nil _)
      | cons a as => exact ⟨a, as, rfl⟩
    rw [hc]
    simp only [pyIntCore]
    obtain ⟨h1, h2⟩ := natToChars_head_not_sign i.natAbs c cs hc
    rw [if_neg h1, if_neg h2, ← hc, decDigits?_natToChars]
    simp [Int.natCast_natAbs, abs_of_nonneg (by omega : (0:ℤ) ≤ i)]
/-! ### Basic facts about the drain and the written rows -/

lemma pop_all_upto_append_eq (c : ℚ) (l : List Event) :
    (pop_all_upto c l).1 ++ (pop_all_upto c l).2 = l := by
  induction l with
  | nil => rfl
  | cons e rest ih =>
    simp only [pop_all_upto]
    by_cases he : e.ts ≤ c
    · rw [if_pos he]
      simpa using ih
    · rw [if_neg he]
      rfl

/-- On a timestamp-sorted buffer the prefix drain is exactly the `≤ cutoff`
filter, and the remainder is exactly the rest. -/
lemma pop_all_upto_sorted (c : ℚ) (l : List Event)
    (h : l.Pairwise (fun a b => a.ts ≤ b.ts)) :
    pop_all_upto c l = (l.filter (fun e => e.ts ≤ c), l.filter (fun e => ¬ e.ts ≤ c)) := by
  induction l with
  | nil => rfl
  | cons e rest ih =>
    rw [List.pairwise_cons] at h
    simp only [pop_all_upto]
    by_cases he : e.ts ≤ c
    · rw [if_pos he, ih h.2]
      simp [List.filter_cons, he]
    · rw [if_neg he]
      have hall : ∀ a ∈ rest, ¬ a.ts ≤ c := fun a ha hle => he (le_trans (h.1 a ha) hle)
      have h1 : (e :: rest).filter (fun e => decide (e.ts ≤ c)) = [] := by
        rw [List.filter_eq_nil_iff]
        intro a ha
        rcases List.mem_cons.mp ha with rfl | ha
        · simpa using he
        · simpa using hall a ha
      have h2 : (e :: rest).filter (fun e => decide ¬ (e.ts ≤ c)) = e :: rest := by
        rw [List.filter_eq_self]
        intro a ha
        rcases List.mem_cons.mp ha with rfl | ha
        · simpa using he
        · simpa using hall a ha
      rw [h1, h2]

lemma writeEventRow_basic (fid : Int) (lp : Option (Int × Int)) (ev : Event) :
    ((writeEventRow fid lp ev).1).row_type = "event" ∧
    ((writeEventRow fid lp ev).1).frame_id = fid ∧
    ((writeEventRow fid lp ev).1).event_type = ev.etype ∧
    ((writeEventRow fid lp ev).1).time_s = round6 ev.ts := by
  unfold writeEventRow
  by_cases h1 : pyStartswith ev.etype "mouse" = true
  · simp [h1]
  · by_cases h2 : pyStartswith ev.etype "key" = true
    · simp [h1, h2]
    · simp [h1, h2]

lemma writeEvents_basic (fid : Int) (lp : Option (Int × Int)) (evs : List Event) :
    ∀ r ∈ (writeEvents fid lp evs).1, r.row_type = "event" ∧ r.frame_id = fid := by
  induction evs generalizing lp with
  | nil => intro r hr; simp [writeEvents] at hr
  | cons e es ih =>
    intro r hr
    simp only [writeEvents] at hr
    rcases List.mem_cons.mp hr with rfl | hr
    · exact ⟨(writeEventRow_basic fid lp e).1, (writeEventRow_basic fid lp e).2.1⟩
    · exact ih _ r hr

lemma cellInt_of_fieldBad {f : Option String} (h : fieldBad f) :
    cellInt f = .ok none ∨ cellInt f = .error () := by
  match f with
  | none => exact Or.inl rfl
  | some s =>
    by_cases hse : s = ""
    · left
      simp [cellInt, hse]
    · rcases h with h | h
      · exact absurd h hse
      · right
        simp [cellInt, hse, h]

lemma cmdStep_skip (acc : List VErr × Nat × Option (Int × Int)) (ev : EventRow)
    (hbad : fieldBad ev.x ∨ fieldBad ev.y ∨ fieldBad ev.dx ∨ fieldBad ev.dy) :
    cmdStep acc ev = acc := by
  unfold cmdStep
  by_cases hm : pyStartswith ev.etype "mouse" = true
  · rw [if_pos hm]
    have hcontra : ∀ {f : Option String} {m : Int},
        fieldBad f → cellInt f = .ok (some m) → False := by
      intro f m hb he
      rcases cellInt_of_fieldBad hb with h | h <;> rw [he] at h <;> simp at h
    cases hx : cellInt ev.x with
    | error e => rfl
    | ok ox =>
      cases ox with
      | none => rfl
      | some x =>
        cases hy : cellInt ev.y with
        | error e => rfl
        | ok oy =>
          cases oy with
          | none => rfl
          | some y =>
            cases hz : cellInt ev.dx with
            | error e => rfl
            | ok oz =>
              cases oz with
              | none => rfl
              | some z =>
                cases hw : cellInt ev.dy with
                | error e => rfl
                | ok ow =>
                  cases ow with
                  | none => rfl
                  | some w =>
                    exfalso
                    rcases hbad with hb | hb | hb | hb
                    · exact hcontra hb hx
                    · exact hcontra hb hy
                    · exact hcontra hb hz
                    · exact hcontra hb hw
  · rw [if_neg hm]

lemma fName_data (k : Nat) : ("F" ++ natToStr k).data = 'F' :: natToChars k := rfl

lemma fName_ne {k : Nat} {t : String} (hh : t.data.head? ≠ some 'F') :
    "F" ++ natToStr k ≠ t := by
  intro he
  apply hh
  rw [← he]
  rfl

lemma singleton_ne {c : Char} {t : String} (ht : t.data.length ≠ 1) :
    String.mk [c] ≠ t := by
  intro he
  apply ht
  rw [← he]
  rfl

/-! ### The claims -/

/-- C10: when `events.csv` is missing from the recording directory, the
validator's `main` prints a message and returns normally: exit status 0, no
checks run, no errors and no warnings reported. -/
theorem c10_missing_csv_is_benign :
    validator_main none = .ok { exitCode := 0, errs := [], warns := [] } := rfl

/-- C3: provided the producers only ever appended events in non-decreasing
timestamp order, `SafeDeque.pop_all_upto cutoff` removes and returns exactly
the buffered events with `ts ≤ cutoff`, in order (hence in timestamp order),
leaves exactly the later events buffered, and an event whose timestamp equals
the cutoff is included in the drain (inclusive boundary). -/
theorem c3_pop_all_upto_exact (c : ℚ) (l : List Event)
    (h : l.Pairwise (fun a b => a.ts ≤ b.ts)) :
    pop_all_upto c l = (l.filter (fun e => e.ts ≤ c), l.filter (fun e => ¬ e.ts ≤ c)) ∧
    ((pop_all_upto c l).1).Pairwise (fun a b => a.ts ≤ b.ts) ∧
    (pop_all_upto c l).1 ++ (pop_all_upto c l).2 = l ∧
    (∀ e ∈ l, e.ts = c → e ∈ (pop_all_upto c l).1) := by
  have hs := pop_all_upto_sorted c l h
  refine ⟨hs, ?_, pop_all_upto_append_eq c l, ?_⟩
  · rw [hs]
    exact h.filter _
  · intro e hel hec
    rw [hs]
    exact List.mem_filter.mpr ⟨hel, by simp [hec]⟩

/-- Witness for C3 at a concrete sorted buffer with an event exactly at the
cutoff: both events at `ts ≤ 2` (including the one at exactly 2) are drained,
the later one stays. -/
theorem c3_pop_all_upto_exact_witness :
    (([{ ts := 1, etype := "mouse_move" }, { ts := 2, etype := "key_down" },
        { ts := 3, etype := "key_up" }] : List Event).Pairwise (fun a b => a.ts ≤ b.ts)) ∧
    pop_all_upto 2 [{ ts := 1, etype := "mouse_move" }, { ts := 2, etype := "key_down" },
        { ts := 3, etype := "key_up" }] =
      ([{ ts := 1, etype := "mouse_move" }, { ts := 2, etype := "key_down" }],
        [{ ts := 3, etype := "key_up" }]) :=
  ⟨by decide,
    (c3_pop_all_upto_exact 2 _ (by decide)).1.trans (by decide)⟩

/-- C9: `check_mouse_deltas` silently skips a mouse event any of whose
`x, y, dx, dy` cells is missing, empty, or not parseable as an integer: the
check's entire result (errors and checked count) is as if the event were not
in the list at all — no error, not counted, and the running last position
used for subsequent events is not updated. -/
theorem c9_mouse_delta_check_skips_bad_rows (xs ys : List EventRow) (ev : EventRow)
    (_hm : pyStartswith ev.etype "mouse" = true)
    (hbad : fieldBad ev.x ∨ fieldBad ev.y ∨ fieldBad ev.dx ∨ fieldBad ev.dy) :
    check_mouse_deltas (xs ++ ev :: ys) = check_mouse_deltas (xs ++ ys) := by
  unfold check_mouse_deltas
  rw [List.foldl_append, List.foldl_append, List.foldl_cons, cmdStep_skip _ ev hbad]

/-- Witness for C9: a mouse event with an unparseable `x` cell between two
good mouse events changes nothing in the check's outcome. -/
theorem c9_mouse_delta_check_skips_bad_rows_witness :
    pyStartswith "mouse_move" "mouse" = true ∧
    check_mouse_deltas
      [{ fid := 1, t := 0, etype := "mouse_move",
          x := some "10", y := some "20", dx := some "0", dy := some "0" },
        { fid := 1, t := 1, etype := "mouse_move",
          x := some "oops", y := some "30", dx := some "5", dy := some "5" },
        { fid := 1, t := 2, etype := "mouse_move",
          x := some "11", y := some "22", dx := some "1", dy := some "2" }] =
    check_mouse_deltas
      [{ fid := 1, t := 0, etype := "mouse_move",
          x := some "10", y := some "20", dx := some "0", dy := some "0" },
        { fid := 1, t := 2, etype := "mouse_move",
          x := some "11", y := some "22", dx := some "1", dy := some "2" }] :=
  ⟨by decide,
    c9_mouse_delta_check_skips_bad_rows
      [{ fid := 1, t := 0, etype := "mouse_move",
          x := some "10", y := some "20", dx := some "0", dy := some "0" }]
      [{ fid := 1, t := 2, etype := "mouse_move",
          x := some "11", y := some "22", dx := some "1", dy := some "2" }]
      { fid := 1, t := 1, etype := "mouse_move",
          x := some "oops", y := some "30", dx := some "5", dy := some "5" }
      (by decide) (Or.inl (by decide))⟩

/-- C8: stop-key parsing is total and never fatal: after stripping and
uppercasing, the named keys `esc`, `enter`/`return`, `space` map to their key
objects, `F` followed by a digit string valued in `1..24` maps to that
function key, a single character maps to that (lowercased) character key, and
every unrecognized name yields the fixed default key `F10`. -/
theorem c8_parse_stop_key_total_fallback :
    (∀ s, pyStripUpper s = "ESC" → parse_stop_key s = PKey.esc) ∧
    (∀ s, pyStripUpper s = "ENTER" ∨ pyStripUpper s = "RETURN" →
      parse_stop_key s = PKey.enter) ∧
    (∀ s, pyStripUpper s = "SPACE" → parse_stop_key s = PKey.space) ∧
    (∀ s k, 1 ≤ k → k ≤ 24 → pyStripUpper s = "F" ++ natToStr k →
      parse_stop_key s = PKey.f k) ∧
    (∀ s c, pyStripUpper s = String.mk [c] → parse_stop_key s = PKey.char c.toLower) ∧
    (∀ s, ¬ recognizedStopKey (pyStripUpper s) → parse_stop_key s = PKey.f 10) := by
  refine ⟨?_, ?_, ?_, ?_, ?_, ?_⟩
  · intro s h
    simp only [parse_stop_key]
    rw [h, if_pos rfl]
  · intro s h
    rcases h with h | h <;> simp only [parse_stop_key] <;> rw [h]
    · rw [if_neg (by decide), if_pos rfl]
    · rw [if_neg (by decide), if_neg (by decide), if_pos rfl]
  · intro s h
    simp only [parse_stop_key]
    rw [h, if_neg (by decide), if_neg (by decide), if_neg (by decide), if_pos rfl]
  · intro s k hk1 hk24 h
    simp only [parse_stop_key]
    rw [h]
    rw [if_neg (fName_ne (by decide)), if_neg (fName_ne (by decide)),
      if_neg (fName_ne (by decide)), if_neg (fName_ne (by decide))]
    have hpre : pyStartswith ("F" ++ natToStr k) "F" = true := by
      show List.isPrefixOf ['F'] ("F" ++ natToStr k).data = true
      rw [fName_data]
      simp [List.isPrefixOf]
    have hdrop : ("F" ++ natToStr k).data.drop 1 = natToChars k := by
      rw [fName_data]
      rfl
    have hv : decDigitsVal (("F" ++ natToStr k).data.drop 1) = k := by
      rw [hdrop, decDigitsVal_natToChars]
    rw [if_pos ⟨hpre, by rw [hdrop]; exact natToChars_ne_nil k,
      by rw [hdrop]; exact natToChars_all_digits k,
      by rw [hv]; exact hk1, by rw [hv]; exact hk24,
      by rw [hv]; simp [keyboardHasF]; omega⟩]
    rw [hv]
  · intro s c h
    simp only [parse_stop_key]
    rw [h]
    rw [if_neg (singleton_ne (by decide)), if_neg (singleton_ne (by decide)),
      if_neg (singleton_ne (by decide)), if_neg (singleton_ne (by decide))]
    rw [if_neg (fun g => g.2.1 rfl)]
    rfl
  · intro s h
    have h1 : pyStripUpper s ≠ "ESC" := fun he => h (Or.inl he)
    have h2 : pyStripUpper s ≠ "ENTER" := fun he => h (Or.inr (Or.inl he))
    have h3 : pyStripUpper s ≠ "RETURN" := fun he => h (Or.inr (Or.inr (Or.inl he)))
    have h4 : pyStripUpper s ≠ "SPACE" :=
      fun he => h (Or.inr (Or.inr (Or.inr (Or.inl he))))
    have h5 : ¬ (pyStartswith (pyStripUpper s) "F" = true ∧
        (pyStripUpper s).data.drop 1 ≠ [] ∧
        ((pyStripUpper s).data.drop 1).all Char.isDigit = true ∧
        1 ≤ decDigitsVal ((pyStripUpper s).data.drop 1) ∧
        decDigitsVal ((pyStripUpper s).data.drop 1) ≤ 24) :=
      fun hg => h (Or.inr (Or.inr (Or.inr (Or.inr (Or.inl hg)))))
    have h6 : (pyStripUpper s).data.length ≠ 1 :=
      fun hl => h (Or.inr (Or.inr (Or.inr (Or.inr (Or.inr hl)))))
    simp only [parse_stop_key]
    rw [if_neg h1, if_neg h2, if_neg h3, if_neg h4]
    rw [if_neg (fun g => h5 ⟨g.1, g.2.1, g.2.2.1, g.2.2.2.1, g.2.2.2.2.1⟩)]
    rcases hnd : (pyStripUpper s).data with _ | ⟨c1, _ | ⟨c2, r2⟩⟩
    · rfl
    · exact absurd (by simp [hnd]) h6
    · rfl

/-- Witness for C8: `" f7 "` parses to the function key `f7`; the unrecognized
name `"CTRL"` falls back to the default `F10`. -/
theorem c8_parse_stop_key_total_fallback_witness :
    pyStripUpper " f7 " = "F" ++ natToStr 7 ∧
    ¬ recognizedStopKey (pyStripUpper "CTRL") ∧
    parse_stop_key " f7 " = PKey.f 7 ∧
    parse_stop_key "CTRL" = PKey.f 10 :=
  ⟨by decide, by decide,
    c8_parse_stop_key_total_fallback.2.2.2.1 " f7 " 7 (by omega) (by omega) (by decide),
    c8_parse_stop_key_total_fallback.2.2.2.2.2 "CTRL" (by decide)⟩

end Datagrab

namespace Datagrab

lemma doTick_frame_id (s : RecState) (tk : Tick) : (doTick s tk).frame_id = s.frame_id + 1 := rfl

lemma doTick_rows (s : RecState) (tk : Tick) :
    (doTick s tk).rows =
      s.rows ++ (writeEvents s.frame_id s.lastPos
        (pop_all_upto tk.t (s.buffer ++ tk.arrivals)).1).1 ++
        [frameRow (s.frame_id + 1) tk.t] := rfl

lemma foldl_frame_id (ticks : List Tick) (s : RecState) :
    (ticks.foldl doTick s).frame_id = s.frame_id + ticks.length := by
  induction ticks generalizing s with
  | nil => simp
  | cons tk tks ih =>
    rw [List.foldl_cons, ih, doTick_frame_id]
    simp only [List.length_cons]
    push_cast
    ring

lemma foldl_rows_ext (ticks : List Tick) (s : RecState) :
    ∃ suf, (ticks.foldl doTick s).rows = s.rows ++ suf := by
  induction ticks generalizing s with
  | nil => exact ⟨[], by simp⟩
  | cons tk tks ih =>
    obtain ⟨suf, hsuf⟩ := ih (doTick s tk)
    refine ⟨(writeEvents s.frame_id s.lastPos
        (pop_all_upto tk.t (s.buffer ++ tk.arrivals)).1).1 ++
        [frameRow (s.frame_id + 1) tk.t] ++ suf, ?_⟩
    rw [List.foldl_cons, hsuf, doTick_rows]
    simp [List.append_assoc]

lemma logFrameIds_append (a b : List Row) :
    logFrameIds (a ++ b) = logFrameIds a ++ logFrameIds b := by
  simp [logFrameIds, List.filter_append]

lemma logFrameIds_of_events {rows : List Row} (h : ∀ r ∈ rows, r.row_type = "event") :
    logFrameIds rows = [] := by
  unfold logFrameIds
  rw [List.filter_eq_nil_iff.mpr]
  · rfl
  · intro r hr
    rw [h r hr]
    decide

lemma logFrameIds_frameRow (fid : Int) (t : ℚ) :
    logFrameIds [frameRow fid t] = [fid] := rfl

lemma foldl_logFrameIds (ticks : List Tick) (s : RecState) :
    logFrameIds (ticks.foldl doTick s).rows =
      logFrameIds s.rows ++ idsFrom (s.frame_id + 1) ticks.length := by
  induction ticks generalizing s with
  | nil => simp [idsFrom]
  | cons tk tks ih =>
    rw [List.foldl_cons, ih, doTick_rows, doTick_frame_id]
    rw [logFrameIds_append, logFrameIds_append,
      logFrameIds_of_events (writeEvents_basic _ _ _ |> fun h r hr => (h r hr).1),
      logFrameIds_frameRow]
    simp [idsFrom, List.append_assoc]

lemma record_logFrameIds (t1 : ℚ) (ticks : List Tick) (tailArrivals : List Event) :
    logFrameIds (record t1 ticks tailArrivals) = idsFrom 1 (ticks.length + 1) := by
  unfold record
  rw [logFrameIds_append,
    logFrameIds_of_events (writeEvents_basic _ _ _ |> fun h r hr => (h r hr).1),
    foldl_logFrameIds]
  show logFrameIds [frameRow 1 t1] ++ idsFrom (1 + 1) ticks.length ++ [] = _
  rw [logFrameIds_frameRow]
  simp [idsFrom]

lemma record_head (t1 : ℚ) (ticks : List Tick) (tailArrivals : List Event) :
    (record t1 ticks tailArrivals).head? = some (frameRow 1 t1) := by
  simp only [record]
  obtain ⟨suf, hsuf⟩ := foldl_rows_ext ticks (initState t1)
  rw [hsuf]
  show ((frameRow 1 t1 :: []) ++ suf ++ _).head? = _
  simp

lemma fidErrs_eq_nil_iff (frames : List FrameRow) :
    ∀ i : Int, fidErrs i frames = [] ↔
      frames.map (fun fr => fr.fid) = idsFrom i frames.length := by
  induction frames with
  | nil => intro i; simp [fidErrs, idsFrom]
  | cons fr rest ih =>
    intro i
    simp only [fidErrs, List.map_cons, List.length_cons, idsFrom]
    by_cases hf : fr.fid = i
    · rw [if_neg (by simpa using hf), hf]
      simp [ih (i + 1)]
    · rw [if_pos hf]
      constructor
      · intro h; exact absurd h (by simp)
      · intro h
        exact absurd (List.cons.injEq .. ▸ h).1 hf

lemma fidErrs_all_F02 (frames : List FrameRow) :
    ∀ i : Int, ∀ e ∈ fidErrs i frames, isF02 e = true := by
  induction frames with
  | nil => intro i e he; simp [fidErrs] at he
  | cons fr rest ih =>
    intro i e he
    simp only [fidErrs] at he
    by_cases hf : fr.fid ≠ i
    · rw [if_pos hf] at he
      simp at he
      rw [he]
      rfl
    · rw [if_neg hf] at he
      exact ih (i + 1) e he

lemma fidErrs_F02_of_ne_nil (frames : List FrameRow) :
    ∀ i : Int, fidErrs i frames ≠ [] → ∃ e ∈ fidErrs i frames, isF02 e = true := by
  intro i hne
  obtain ⟨e, he⟩ := List.exists_mem_of_ne_nil _ hne
  exact ⟨e, he, fidErrs_all_F02 frames i e he⟩

lemma monoErrs_no_F02 (frames : List FrameRow) : ∀ e ∈ monoErrs frames, isF02 e = false := by
  induction frames with
  | nil => intro e he; simp [monoErrs] at he
  | cons a rest ih =>
    intro e he
    cases rest with
    | nil => simp [monoErrs] at he
    | cons b rest2 =>
      simp only [monoErrs] at he
      by_cases hm : b.t < a.t - eps6
      · rw [if_pos hm] at he
        simp at he
        rw [he]
        rfl
      · rw [if_neg hm] at he
        exact ih e he

lemma check_frames_F02_iff (frames : List FrameRow) :
    (∃ e ∈ check_frames frames, isF02 e = true) ↔
      frames.map (fun fr => fr.fid) ≠ idsFrom 1 frames.length := by
  unfold check_frames
  by_cases hni : frames.isEmpty
  · rw [if_pos hni]
    have : frames = [] := List.isEmpty_iff.mp hni
    subst this
    simp [idsFrom, isF02]
  · rw [if_neg hni]
    constructor
    · rintro ⟨e, he, hf⟩
      rcases List.mem_append.mp he with h | h
      · intro hc
        rw [(fidErrs_eq_nil_iff frames 1).mpr hc] at h
        simp at h
      · rw [monoErrs_no_F02 frames e h] at hf
        exact fun hc => Bool.false_ne_true hf
    · intro hne
      have h1 : fidErrs 1 frames ≠ [] :=
        fun hc => hne ((fidErrs_eq_nil_iff frames 1).mp hc)
      obtain ⟨e, he, hf⟩ := fidErrs_F02_of_ne_nil frames 1 h1
      exact ⟨e, List.mem_append.mpr (Or.inl he), hf⟩

/-- C1: (recorder side) every completed session log carries frame rows whose
ids are exactly the contiguous sequence `1..N` in order (`N` = number of ticks
plus the initial frame), and the frame-1 row is the very first row of the log,
written before any first-tick content; (validator side) `check_frames` reports
an `F02`-class error precisely for the frame lists whose ids are not exactly
`1..N` in order. -/
theorem c1_frame_ids_contiguous :
    (∀ (t1 : ℚ) (ticks : List Tick) (tailArrivals : List Event),
      logFrameIds (record t1 ticks tailArrivals) = idsFrom 1 (ticks.length + 1) ∧
      (record t1 ticks tailArrivals).head? = some (frameRow 1 t1)) ∧
    (∀ frames : List FrameRow,
      (∃ e ∈ check_frames frames, isF02 e = true) ↔
        frames.map (fun fr => fr.fid) ≠ idsFrom 1 frames.length) :=
  ⟨fun t1 ticks tailArrivals =>
    ⟨record_logFrameIds t1 ticks tailArrivals, record_head t1 ticks tailArrivals⟩,
    check_frames_F02_iff⟩

/-- Witness for C1: a one-tick session yields frame ids `[1, 2]`, and the
frame list with ids `[1, 3]` is exactly the kind `check_frames` flags with an
`F02`-class error. -/
theorem c1_frame_ids_contiguous_witness :
    logFrameIds (record 0 [{ arrivals := [], t := 1 }] []) = idsFrom 1 2 ∧
    ((∃ e ∈ check_frames ([{ fid := 1, t := 0 }, { fid := 3, t := 1 }] : List FrameRow),
        isF02 e = true) ↔
      ([{ fid := 1, t := 0 }, { fid := 3, t := 1 }] : List FrameRow).map (fun fr => fr.fid) ≠
        idsFrom 1 2) :=
  ⟨(c1_frame_ids_contiguous.1 0 [{ arrivals := [], t := 1 }] []).1,
    c1_frame_ids_contiguous.2 ([{ fid := 1, t := 0 }, { fid := 3, t := 1 }] : List FrameRow)⟩

/-- C2: at every tick the recorder drains exactly the buffered events with
`timestamp ≤ t_boundary` and writes them with the previously committed frame
id (not the id of the frame just captured); all drained event rows precede
the new frame row, whose id is `frame_id + 1`; and the shutdown `drain_all`
tail flush appends only event rows attributed to the final committed frame
id, which equals the number of ticks plus one. -/
theorem c2_drain_attribution (s : RecState) (tk : Tick)
    (h : (s.buffer ++ tk.arrivals).Pairwise (fun a b => a.ts ≤ b.ts)) :
    ((doTick s tk).rows = s.rows ++
        (writeEvents s.frame_id s.lastPos
          ((s.buffer ++ tk.arrivals).filter (fun e => e.ts ≤ tk.t))).1 ++
        [frameRow (s.frame_id + 1) tk.t]) ∧
    (∀ r ∈ (writeEvents s.frame_id s.lastPos
        ((s.buffer ++ tk.arrivals).filter (fun e => e.ts ≤ tk.t))).1,
      r.row_type = "event" ∧ r.frame_id = s.frame_id) ∧
    (doTick s tk).frame_id = s.frame_id + 1 ∧
    (∀ (t1 : ℚ) (ticks : List Tick) (tailArrivals : List Event),
      ∃ trows,
        record t1 ticks tailArrivals = (ticks.foldl doTick (initState t1)).rows ++ trows ∧
        (∀ r ∈ trows, r.row_type = "event" ∧
          r.frame_id = (ticks.foldl doTick (initState t1)).frame_id) ∧
        (ticks.foldl doTick (initState t1)).frame_id = ticks.length + 1) := by
  refine ⟨?_, writeEvents_basic _ _ _, rfl, ?_⟩
  · rw [doTick_rows, pop_all_upto_sorted tk.t _ h]
  · intro t1 ticks tailArrivals
    refine ⟨(writeEvents (ticks.foldl doTick (initState t1)).frame_id
        (ticks.foldl doTick (initState t1)).lastPos
        (drain_all ((ticks.foldl doTick (initState t1)).buffer ++ tailArrivals)).1).1,
      rfl, writeEvents_basic _ _ _, ?_⟩
    rw [foldl_frame_id]
    show (1 : Int) + ticks.length = ticks.length + 1
    ring

/-- Witness for C2 at a concrete tick: the single buffered event (timestamp 1
≤ boundary 2) is drained, written with the committed frame id 1, before the
new frame row with id 2. -/
theorem c2_drain_attribution_witness :
    ((([] : List Event) ++ ([{ ts := 1, etype := "key_down" }] : List Event)).Pairwise
      (fun a b => a.ts ≤ b.ts)) ∧
    ((doTick { buffer := [], frame_id := 1, lastPos := none, rows := [] }
        { arrivals := ([{ ts := 1, etype := "key_down" }] : List Event), t := 2 }).rows =
      ([] : List Row) ++
        (writeEvents 1 none ((([] : List Event) ++
            ([{ ts := 1, etype := "key_down" }] : List Event)).filter
          (fun e => e.ts ≤ (2 : ℚ)))).1 ++
        [frameRow (1 + 1) 2]) :=
  ⟨by decide,
    (c2_drain_attribution { buffer := [], frame_id := 1, lastPos := none, rows := [] }
      { arrivals := ([{ ts := 1, etype := "key_down" }] : List Event), t := 2 }
      (by decide)).1⟩

lemma cevfFold_error (last : Int) (ft : Int → Option ℚ) (evs : List EventRow) (e : Unit) :
    evs.foldl (cevfStep last ft) (.error e) = .error e := by
  induction evs with
  | nil => rfl
  | cons ev evs ih => rw [List.foldl_cons]; exact ih

lemma cevfFold_shift (last : Int) (ft : Int → Option ℚ) (evs : List EventRow)
    (E0 : List VErr) (W0 : List VWarn) :
    evs.foldl (cevfStep last ft) (.ok (E0, W0)) =
      match evs.foldl (cevfStep last ft) (.ok ([], [])) with
      | .error e => .error e
      | .ok ew => .ok (E0 ++ ew.1, W0 ++ ew.2) := by
  induction evs generalizing E0 W0 with
  | nil => simp
  | cons ev evs ih =>
    rw [List.foldl_cons, List.foldl_cons]
    cases hev : cevfEvent last ft ev with
    | error e =>
      have h1 : cevfStep last ft (.ok (E0, W0)) ev = .error e := by
        simp [cevfStep, hev]
      have h2 : cevfStep last ft (.ok ([], [])) ev = .error e := by
        simp [cevfStep, hev]
      rw [h1, h2, cevfFold_error]
    | ok ew2 =>
      have h1 : cevfStep last ft (.ok (E0, W0)) ev = .ok (E0 ++ ew2.1, W0 ++ ew2.2) := by
        simp [cevfStep, hev]
      have h2 : cevfStep last ft (.ok ([], [])) ev = .ok (ew2.1, ew2.2) := by
        simp [cevfStep, hev]
      rw [h1, h2, ih (E0 ++ ew2.1) (W0 ++ ew2.2), ih ew2.1 ew2.2]
      cases hr : evs.foldl (cevfStep last ft) (.ok ([], [])) with
      | error e => rfl
      | ok ew => simp [List.append_assoc]

/-- Characterization of a successful `check_events_vs_frames` loop run: every
event was processed without exception, and the pooled error/warning lists are
exactly the per-event contributions. -/
lemma cevfFold_ok_char (last : Int) (ft : Int → Option ℚ) :
    ∀ (evs : List EventRow) (E : List VErr) (W : List VWarn),
      evs.foldl (cevfStep last ft) (.ok ([], [])) = .ok (E, W) →
      (∀ ev ∈ evs, ∃ es ws, cevfEvent last ft ev = .ok (es, ws)) ∧
      (∀ er, er ∈ E ↔ ∃ ev ∈ evs, ∃ es ws, cevfEvent last ft ev = .ok (es, ws) ∧ er ∈ es) ∧
      (∀ w, w ∈ W ↔ ∃ ev ∈ evs, ∃ es ws, cevfEvent last ft ev = .ok (es, ws) ∧ w ∈ ws) := by
  intro evs
  induction evs with
  | nil =>
    intro E W hok
    simp only [List.foldl_nil, Except.ok.injEq, Prod.mk.injEq] at hok
    refine ⟨by simp, ?_, ?_⟩ <;> intro z <;> simp [← hok.1, ← hok.2]
  | cons ev evs ih =>
    intro E W hok
    rw [List.foldl_cons] at hok
    cases hev : cevfEvent last ft ev with
    | error e =>
      rw [show cevfStep last ft (.ok ([], [])) ev = .error e by simp [cevfStep, hev],
        cevfFold_error] at hok
      exact absurd hok (by simp)
    | ok ew2 =>
      rw [show cevfStep last ft (.ok ([], [])) ev = .ok (ew2.1, ew2.2) by
          simp [cevfStep, hev],
        cevfFold_shift] at hok
      cases hr : evs.foldl (cevfStep last ft) (.ok ([], [])) with
      | error e => rw [hr] at hok; exact absurd hok (by simp)
      | ok ew =>
        rw [hr] at hok
        simp only [Except.ok.injEq, Prod.mk.injEq] at hok
        obtain ⟨hE, hW⟩ := hok
        obtain ⟨hall, hErr, hWarn⟩ := ih ew.1 ew.2 (by rw [hr])
        refine ⟨?_, ?_, ?_⟩
        · intro a ha
          rcases List.mem_cons.mp ha with rfl | ha
          · exact ⟨ew2.1, ew2.2, by rw [hev]⟩
          · exact hall a ha
        · intro er
          rw [← hE, List.mem_append]
          constructor
          · rintro (h | h)
            · exact ⟨ev, List.mem_cons_self ev evs, ew2.1, ew2.2, by rw [hev], h⟩
            · obtain ⟨a, ha, es, ws, he, hmem⟩ := (hErr er).mp h
              exact ⟨a, List.mem_cons_of_mem ev ha, es, ws, he, hmem⟩
          · rintro ⟨a, ha, es, ws, he, hmem⟩
            rcases List.mem_cons.mp ha with rfl | ha
            · rw [hev] at he
              simp only [Except.ok.injEq] at he
              exact Or.inl (by rw [he]; exact hmem)
            · exact Or.inr ((hErr er).mpr ⟨a, ha, es, ws, he, hmem⟩)
        · intro w
          rw [← hW, List.mem_append]
          constructor
          · rintro (h | h)
            · exact ⟨ev, List.mem_cons_self ev evs, ew2.1, ew2.2, by rw [hev], h⟩
            · obtain ⟨a, ha, es, ws, he, hmem⟩ := (hWarn w).mp h
              exact ⟨a, List.mem_cons_of_mem ev ha, es, ws, he, hmem⟩
          · rintro ⟨a, ha, es, ws, he, hmem⟩
            rcases List.mem_cons.mp ha with rfl | ha
            · rw [hev] at he
              simp only [Except.ok.injEq] at he
              exact Or.inl (by rw [he]; exact hmem)
            · exact Or.inr ((hWarn w).mpr ⟨a, ha, es, ws, he, hmem⟩)

/-- Shape of a successful per-event check for an in-range event strictly below
the last frame id. -/
lemma cevfEvent_ok_mid {last : Int} {ft : Int → Option ℚ} {ev : EventRow}
    {es : List VErr} {ws : List VWarn}
    (h : cevfEvent last ft ev = .ok (es, ws)) (h1 : 1 ≤ ev.fid) (h2 : ev.fid < last) :
    ∃ tn tc, ft (ev.fid + 1) = some tn ∧ ft ev.fid = some tc ∧
      es = (if ev.t > tn + eps6 then [VErr.E02 ev.t ev.fid tn] else []) ++
        (if ev.fid > 1 ∧ ev.t < tc - eps6 then [VErr.E03 ev.t ev.fid tc] else []) ∧
      ws = (if ev.fid = 1 ∧ ev.t < tc - eps6 then [VWarn.W10 ev.t tc] else []) := by
  unfold cevfEvent at h
  rw [if_neg (by omega)] at h
  rw [if_pos h2] at h
  cases htn : ft (ev.fid + 1) with
  | none => rw [htn] at h; simp at h
  | some tn =>
    rw [htn] at h
    simp only [Option.map_some'] at h
    cases htc : ft ev.fid with
    | none => rw [htc] at h; simp at h
    | some tc =>
      rw [htc] at h
      simp only [Except.ok.injEq, Prod.mk.injEq] at h
      exact ⟨tn, tc, rfl, rfl, h.1.symm, h.2.symm⟩

/-- Shape of a successful per-event check for an event attributed to the last
frame id. -/
lemma cevfEvent_ok_last {last : Int} {ft : Int → Option ℚ} {ev : EventRow}
    {es : List VErr} {ws : List VWarn}
    (h : cevfEvent last ft ev = .ok (es, ws)) (h1 : 1 ≤ ev.fid) (h2 : ¬ ev.fid < last)
    (h3 : ev.fid ≤ last) :
    ∃ tc, ft ev.fid = some tc ∧
      es = (if ev.fid > 1 ∧ ev.t < tc - eps6 then [VErr.E03 ev.t ev.fid tc] else []) ∧
      ws = (if ev.fid = 1 ∧ ev.t < tc - eps6 then [VWarn.W10 ev.t tc] else []) := by
  unfold cevfEvent at h
  rw [if_neg (by omega)] at h
  rw [if_neg h2] at h
  cases htc : ft ev.fid with
  | none => rw [htc] at h; simp at h
  | some tc =>
    rw [htc] at h
    simp only [Except.ok.injEq, Prod.mk.injEq] at h
    refine ⟨tc, rfl, ?_, h.2.symm⟩
    rw [← h.1]
    rfl

/-- An out-of-range event yields exactly the `E01` error. -/
lemma cevfEvent_out_of_range {last : Int} {ft : Int → Option ℚ} {ev : EventRow}
    (h : ev.fid < 1 ∨ ev.fid > last) :
    cevfEvent last ft ev = .ok ([.E01 ev.fid last], []) := by
  unfold cevfEvent
  rw [if_pos h]

/-- Inversion: an `E02` in a per-event result pins down the event and the
strict beyond-tolerance upper-bound violation, and the event's frame id is
strictly below the last frame id. -/
lemma E02_mem_es {last : Int} {ft : Int → Option ℚ} {a : EventRow}
    {es : List VErr} {ws : List VWarn} (he : cevfEvent last ft a = .ok (es, ws))
    {t : ℚ} {b : Int} {c : ℚ} (hin : VErr.E02 t b c ∈ es) :
    t = a.t ∧ b = a.fid ∧ a.fid < last ∧ 1 ≤ a.fid ∧
      ft (a.fid + 1) = some c ∧ a.t > c + eps6 := by
  by_cases hr : a.fid < 1 ∨ a.fid > last
  · rw [cevfEvent_out_of_range hr] at he
    simp only [Except.ok.injEq, Prod.mk.injEq] at he
    rw [← he.1] at hin
    simp at hin
  · by_cases hlt : a.fid < last
    · obtain ⟨tn, tc, hftn, hftc, hes, hws⟩ := cevfEvent_ok_mid he (by omega) hlt
      rw [hes] at hin
      rcases List.mem_append.mp hin with hin2 | hin2
      · by_cases hcond : a.t > tn + eps6
        · rw [if_pos hcond] at hin2
          simp only [List.mem_singleton, VErr.E02.injEq] at hin2
          exact ⟨hin2.1, hin2.2.1, hlt, by omega, by rw [hin2.2.2]; exact hftn, by
            rw [hin2.2.2]; exact hcond⟩
        · rw [if_neg hcond] at hin2
          simp at hin2
      · by_cases hcond : a.fid > 1 ∧ a.t < tc - eps6
        · rw [if_pos hcond] at hin2
          simp at hin2
        · rw [if_neg hcond] at hin2
          simp at hin2
    · obtain ⟨tc, hftc, hes, hws⟩ := cevfEvent_ok_last he (by omega) hlt (by omega)
      rw [hes] at hin
      by_cases hcond : a.fid > 1 ∧ a.t < tc - eps6
      · rw [if_pos hcond] at hin
        simp at hin
      · rw [if_neg hcond] at hin
        simp at hin

/-- Inversion: an `E03` in a per-event result pins down the event, its frame
id strictly above 1, and the strict beyond-tolerance lower-bound violation. -/
lemma E03_mem_es {last : Int} {ft : Int → Option ℚ} {a : EventRow}
    {es : List VErr} {ws : List VWarn} (he : cevfEvent last ft a = .ok (es, ws))
    {t : ℚ} {b : Int} {c : ℚ} (hin : VErr.E03 t b c ∈ es) :
    t = a.t ∧ b = a.fid ∧ 1 < a.fid ∧ a.fid ≤ last ∧
      ft a.fid = some c ∧ a.t < c - eps6 := by
  by_cases hr : a.fid < 1 ∨ a.fid > last
  · rw [cevfEvent_out_of_range hr] at he
    simp only [Except.ok.injEq, Prod.mk.injEq] at he
    rw [← he.1] at hin
    simp at hin
  · by_cases hlt : a.fid < last
    · obtain ⟨tn, tc, hftn, hftc, hes, hws⟩ := cevfEvent_ok_mid he (by omega) hlt
      rw [hes] at hin
      rcases List.mem_append.mp hin with hin2 | hin2
      · by_cases hcond : a.t > tn + eps6
        · rw [if_pos hcond] at hin2
          simp at hin2
        · rw [if_neg hcond] at hin2
          simp at hin2
      · by_cases hcond : a.fid > 1 ∧ a.t < tc - eps6
        · rw [if_pos hcond] at hin2
          simp only [List.mem_singleton, VErr.E03.injEq] at hin2
          exact ⟨hin2.1, hin2.2.1, hcond.1, by omega,
            by rw [hin2.2.2]; exact hftc, by rw [hin2.2.2]; exact hcond.2⟩
        · rw [if_neg hcond] at hin2
          simp at hin2
    · obtain ⟨tc, hftc, hes, hws⟩ := cevfEvent_ok_last he (by omega) hlt (by omega)
      rw [hes] at hin
      by_cases hcond : a.fid > 1 ∧ a.t < tc - eps6
      · rw [if_pos hcond] at hin
        simp only [List.mem_singleton, VErr.E03.injEq] at hin
        exact ⟨hin.1, hin.2.1, hcond.1, by omega,
          by rw [hin.2.2]; exact hftc, by rw [hin.2.2]; exact hcond.2⟩
      · rw [if_neg hcond] at hin
        simp at hin

/-- Inversion: a `W10` in a per-event result pins down the event, that its
frame id is exactly 1, and the strict beyond-tolerance early timestamp. -/
lemma W10_mem_ws {last : Int} {ft : Int → Option ℚ} {a : EventRow}
    {es : List VErr} {ws : List VWarn} (he : cevfEvent last ft a = .ok (es, ws))
    {t : ℚ} {c : ℚ} (hin : VWarn.W10 t c ∈ ws) :
    t = a.t ∧ a.fid = 1 ∧ 1 ≤ last ∧ ft 1 = some c ∧ a.t < c - eps6 := by
  by_cases hr : a.fid < 1 ∨ a.fid > last
  · rw [cevfEvent_out_of_range hr] at he
    simp only [Except.ok.injEq, Prod.mk.injEq] at he
    rw [← he.2] at hin
    simp at hin
  · have hws2 : ∃ tc, ft a.fid = some tc ∧
        ws = (if a.fid = 1 ∧ a.t < tc - eps6 then [VWarn.W10 a.t tc] else []) := by
      by_cases hlt : a.fid < last
      · obtain ⟨tn, tc, hftn, hftc, hes, hws⟩ := cevfEvent_ok_mid he (by omega) hlt
        exact ⟨tc, hftc, hws⟩
      · obtain ⟨tc, hftc, hes, hws⟩ := cevfEvent_ok_last he (by omega) hlt (by omega)
        exact ⟨tc, hftc, hws⟩
    obtain ⟨tc, hftc, hws⟩ := hws2
    rw [hws] at hin
    by_cases hcond : a.fid = 1 ∧ a.t < tc - eps6
    · rw [if_pos hcond] at hin
      simp only [List.mem_singleton, VWarn.W10.injEq] at hin
      refine ⟨hin.1, hcond.1, by omega, ?_, by rw [hin.2]; exact hcond.2⟩
      rw [hin.2, ← hcond.1]
      exact hftc
    · rw [if_neg hcond] at hin
      simp at hin

lemma lastFid_nil : lastFid ([] : List FrameRow) = 0 := rfl

/-- Counterexample to C5 as stated: the event's timestamp exceeds the next
frame's timestamp (by half a microsecond), yet the validator reports no
error at all — the `E02` check only fires beyond the `1e-6` tolerance. -/
theorem c5_claim_counterexample :
    ((1 : ℚ) + 1 / 2000000 > 1) ∧
    check_events_vs_frames
      ([{ fid := 1, t := 0 }, { fid := 2, t := 1 }] : List FrameRow)
      ([{ fid := 1, t := 1 + 1 / 2000000, etype := "key_down" }] : List EventRow) =
      .ok ([], []) :=
  ⟨by norm_num, by with_unfolding_all rfl⟩

/-- C5 (amended: the upper bound is enforced with the validator's `1e-6`
tolerance): on a successful run, an in-range event with frame id `k` strictly
below the last id is flagged `E02` precisely when its timestamp exceeds
`t(frame k+1) + 1e-6`; and every reported `E02` stems from an event with
frame id strictly below the last one — events attributed to the last frame id
have no upper bound. -/
theorem c5_e02_upper_bound (frames : List FrameRow) (events : List EventRow)
    (E : List VErr) (W : List VWarn)
    (hok : check_events_vs_frames frames events = .ok (E, W)) :
    (∀ ev ∈ events, ∀ tn, 1 ≤ ev.fid → ev.fid < lastFid frames →
      frameTimes frames (ev.fid + 1) = some tn →
      (VErr.E02 ev.t ev.fid tn ∈ E ↔ ev.t > tn + eps6)) ∧
    (∀ a b c, VErr.E02 a b c ∈ E → b < lastFid frames ∧ a > c + eps6) := by
  unfold check_events_vs_frames at hok
  by_cases hfe : frames.isEmpty
  · rw [if_pos hfe] at hok
    simp only [Except.ok.injEq, Prod.mk.injEq] at hok
    have hfr : frames = [] := List.isEmpty_iff.mp hfe
    constructor
    · intro ev hev tn h1 h2 hft
      rw [hfr, lastFid_nil] at h2
      omega
    · intro a b c hmem
      rw [← hok.1] at hmem
      simp at hmem
  · rw [if_neg hfe] at hok
    obtain ⟨hall, hErr, hWarn⟩ :=
      cevfFold_ok_char (lastFid frames) (frameTimes frames) events E W hok
    constructor
    · intro ev hev tn h1 h2 hft
      constructor
      · intro hmem
        obtain ⟨a, ha, es, ws, he, hin⟩ := (hErr _).mp hmem
        obtain ⟨ht, hb, _, _, hftn, hgt⟩ := E02_mem_es he hin
        rw [ht]
        exact hgt
      · intro hgt
        obtain ⟨es, ws, he⟩ := hall ev hev
        obtain ⟨tn2, tc, hftn, hftc, hes, hws⟩ := cevfEvent_ok_mid he h1 h2
        rw [hft] at hftn
        have htn2 : tn2 = tn := ((Option.some.injEq ..).mp hftn).symm
        refine (hErr _).mpr ⟨ev, hev, es, ws, he, ?_⟩
        rw [hes]
        apply List.mem_append_left
        rw [htn2, if_pos hgt]
        exact List.mem_singleton.mpr rfl
    · intro a b c hmem
      obtain ⟨a2, ha, es, ws, he, hin⟩ := (hErr _).mp hmem
      obtain ⟨ht, hb, hlt, _, _, hgt⟩ := E02_mem_es he hin
      exact ⟨by rw [hb]; exact hlt, by rw [ht]; exact hgt⟩

/-- Witness for C5 at a concrete session: a frame list `1@0, 2@1` and one
event at `t = 2` attributed to frame 1: the `E02` for it is reported, and the
iff instantiates to the true strict-tolerance comparison. -/
theorem c5_e02_upper_bound_witness :
    (VErr.E02 2 1 1 ∈ ([VErr.E02 2 1 1] : List VErr)) ↔ (2 : ℚ) > 1 + eps6 :=
  (c5_e02_upper_bound
    ([{ fid := 1, t := 0 }, { fid := 2, t := 1 }] : List FrameRow)
    ([{ fid := 1, t := 2, etype := "key_down" }] : List EventRow)
    [VErr.E02 2 1 1] [] (by with_unfolding_all rfl)).1
    { fid := 1, t := 2, etype := "key_down" } (by decide) 1 (by decide)
    (by with_unfolding_all decide) (by with_unfolding_all rfl)

/-- Counterexample to C6 as stated: an event attributed to frame 1 whose
timestamp is earlier than frame 1's timestamp (by half a microsecond)
produces no warning at all — the `W10` downgrade only fires beyond the `1e-6`
tolerance. -/
theorem c6_claim_counterexample :
    ((1 : ℚ) - 1 / 2000000 < 1) ∧
    check_events_vs_frames
      ([{ fid := 1, t := 1 }] : List FrameRow)
      ([{ fid := 1, t := 1 - 1 / 2000000, etype := "key_down" }] : List EventRow) =
      .ok ([], []) :=
  ⟨by norm_num, by with_unfolding_all rfl⟩

/-- C6 (amended: both bounds are enforced with the validator's `1e-6`
tolerance): on a successful run, an event attributed to frame 1 whose
timestamp is below `t(frame 1) - 1e-6` yields the `W10` warning; no `E03`
error ever has frame id 1 (the downgrade); and for an in-range attributed id
`k > 1` the same condition yields the `E03` error. -/
theorem c6_frame1_lower_bound_downgrade (frames : List FrameRow) (events : List EventRow)
    (E : List VErr) (W : List VWarn)
    (hok : check_events_vs_frames frames events = .ok (E, W)) :
    (∀ ev ∈ events, ∀ tc, ev.fid = 1 → 1 ≤ lastFid frames →
      frameTimes frames 1 = some tc →
      (VWarn.W10 ev.t tc ∈ W ↔ ev.t < tc - eps6)) ∧
    (∀ a b c, VErr.E03 a b c ∈ E → 1 < b) ∧
    (∀ ev ∈ events, ∀ tc, 1 < ev.fid → ev.fid ≤ lastFid frames →
      frameTimes frames ev.fid = some tc →
      (VErr.E03 ev.t ev.fid tc ∈ E ↔ ev.t < tc - eps6)) := by
  unfold check_events_vs_frames at hok
  by_cases hfe : frames.isEmpty
  · rw [if_pos hfe] at hok
    simp only [Except.ok.injEq, Prod.mk.injEq] at hok
    have hfr : frames = [] := List.isEmpty_iff.mp hfe
    refine ⟨?_, ?_, ?_⟩
    · intro ev hev tc h1 h2 hft
      rw [hfr, lastFid_nil] at h2
      omega
    · intro a b c hmem
      rw [← hok.1] at hmem
      simp at hmem
    · intro ev hev tc h1 h2 hft
      rw [hfr, lastFid_nil] at h2
      omega
  · rw [if_neg hfe] at hok
    obtain ⟨hall, hErr, hWarn⟩ :=
      cevfFold_ok_char (lastFid frames) (frameTimes frames) events E W hok
    refine ⟨?_, ?_, ?_⟩
    · intro ev hev tc h1 hlast hft
      constructor
      · intro hmem
        obtain ⟨a, ha, es, ws, he, hin⟩ := (hWarn _).mp hmem
        obtain ⟨ht, hfid1, _, hft1, hlt⟩ := W10_mem_ws he hin
        rw [ht]
        exact hlt
      · intro hlt
        obtain ⟨es, ws, he⟩ := hall ev hev
        have hws2 : ∃ tc2, frameTimes frames ev.fid = some tc2 ∧
            ws = (if ev.fid = 1 ∧ ev.t < tc2 - eps6 then [VWarn.W10 ev.t tc2] else []) := by
          by_cases hlt2 : ev.fid < lastFid frames
          · obtain ⟨tn, tc2, hftn, hftc, hes, hws⟩ :=
              cevfEvent_ok_mid he (by omega) hlt2
            exact ⟨tc2, hftc, hws⟩
          · obtain ⟨tc2, hftc, hes, hws⟩ :=
              cevfEvent_ok_last he (by omega) hlt2 (by omega)
            exact ⟨tc2, hftc, hws⟩
        obtain ⟨tc2, hftc, hws⟩ := hws2
        rw [h1, hft] at hftc
        have htc2 : tc2 = tc := ((Option.some.injEq ..).mp hftc).symm
        refine (hWarn _).mpr ⟨ev, hev, es, ws, he, ?_⟩
        rw [hws, htc2, if_pos ⟨h1, hlt⟩]
        exact List.mem_singleton.mpr rfl
    · intro a b c hmem
      obtain ⟨a2, ha, es, ws, he, hin⟩ := (hErr _).mp hmem
      obtain ⟨_, hb, hgt1, _, _, _⟩ := E03_mem_es he hin
      rw [hb]
      exact hgt1
    · intro ev hev tc h1 hlast hft
      constructor
      · intro hmem
        obtain ⟨a, ha, es, ws, he, hin⟩ := (hErr _).mp hmem
        obtain ⟨ht, hb, _, _, hftc, hlt⟩ := E03_mem_es he hin
        rw [ht]
        exact hlt
      · intro hlt
        obtain ⟨es, ws, he⟩ := hall ev hev
        have hes2 : ∃ tc2, frameTimes frames ev.fid = some tc2 ∧
            ((if ev.fid > 1 ∧ ev.t < tc2 - eps6 then [VErr.E03 ev.t ev.fid tc2] else []) : List VErr).Sublist es := by
          by_cases hlt2 : ev.fid < lastFid frames
          · obtain ⟨tn, tc2, hftn, hftc, hes, hws⟩ :=
              cevfEvent_ok_mid he (by omega) hlt2
            refine ⟨tc2, hftc, ?_⟩
            rw [hes]
            exact List.sublist_append_right _ _
          · obtain ⟨tc2, hftc, hes, hws⟩ :=
              cevfEvent_ok_last he (by omega) hlt2 (by omega)
            refine ⟨tc2, hftc, ?_⟩
            rw [hes]
        obtain ⟨tc2, hftc, hsub⟩ := hes2
        rw [hft] at hftc
        have htc2 : tc2 = tc := ((Option.some.injEq ..).mp hftc).symm
        refine (hErr _).mpr ⟨ev, hev, es, ws, he, ?_⟩
        apply hsub.mem
        rw [htc2, if_pos ⟨h1, hlt⟩]
        exact List.mem_singleton.mpr rfl

/-- Witness for C6 at a concrete session: one frame at `t = 10` and one event
attributed to frame 1 at `t = 0`: the `W10` warning is reported, and the iff
instantiates to the true strict-tolerance comparison. -/
theorem c6_frame1_lower_bound_downgrade_witness :
    (VWarn.W10 0 10 ∈ ([VWarn.W10 0 10] : List VWarn)) ↔ (0 : ℚ) < 10 - eps6 :=
  (c6_frame1_lower_bound_downgrade
    ([{ fid := 1, t := 10 }] : List FrameRow)
    ([{ fid := 1, t := 0, etype := "key_down" }] : List EventRow)
    [] [VWarn.W10 0 10] (by with_unfolding_all rfl)).1
    { fid := 1, t := 0, etype := "key_down" } (by decide) 10 (by decide)
    (by with_unfolding_all decide) (by with_unfolding_all rfl)

/-- C7 (code bug): the validator is supposed to collect and report every
violation without halting, but on a log whose frame ids have a gap (which
`check_frames` itself detects as `F02`, so such inputs are in its domain) the
`frame_times[...]` dict access in `check_events_vs_frames` raises an uncaught
`KeyError`: `main` dies mid-validation instead of reporting the collected
errors and exiting with the aggregate status. -/
theorem c7_validator_crashes_on_frame_gap :
    validator_main (some
      [{ row_type := "frame", frame_id := 1, time_s := 0, event_type := "frame" },
        { row_type := "frame", frame_id := 3, time_s := 1, event_type := "frame" },
        { row_type := "event", frame_id := 2, time_s := 0, event_type := "key_down" }]) =
      .error () ∧
    check_frames (load_csv
      [{ row_type := "frame", frame_id := 1, time_s := 0, event_type := "frame" },
        { row_type := "frame", frame_id := 3, time_s := 1, event_type := "frame" },
        { row_type := "event", frame_id := 2, time_s := 0, event_type := "key_down" }]).1 ≠
      [] :=
  ⟨by with_unfolding_all rfl, by with_unfolding_all decide⟩

lemma round6_mono {a b : ℚ} (h : a ≤ b) : round6 a ≤ round6 b := by
  unfold round6
  have h2 : a * 1000000 + 1 / 2 ≤ b * 1000000 + 1 / 2 :=
    add_le_add_right (mul_le_mul_of_nonneg_right h (by norm_num)) _
  have h4 : ((⌊a * 1000000 + 1 / 2⌋ : ℤ) : ℚ) ≤ ((⌊b * 1000000 + 1 / 2⌋ : ℤ) : ℚ) := by
    exact_mod_cast Int.floor_mono h2
  rw [div_eq_mul_inv, div_eq_mul_inv]
  exact mul_le_mul_of_nonneg_right h4 (by norm_num)

lemma intToStr_ne_empty (i : Int) : intToStr i ≠ "" := by
  unfold intToStr
  split
  · intro h
    have := congrArg String.data h
    simp at this
  · intro h
    have hd := congrArg String.data h
    exact natToChars_ne_nil i.natAbs (by simpa [natToStr] using hd)

lemma cellInt_intToStr (i : Int) : cellInt (some (intToStr i)) = .ok (some i) := by
  show (if intToStr i = "" then Except.ok none
      else match pyInt (intToStr i) with
        | some n => Except.ok (some n)
        | none => Except.error ()) = Except.ok (some i)
  rw [if_neg (intToStr_ne_empty i), pyInt_intToStr]

lemma writeEventRow_mouse (fid : Int) (lp : Option (Int × Int)) (ev : Event)
    (hm : pyStartswith ev.etype "mouse" = true) :
    writeEventRow fid lp ev =
      ({ row_type := "event", frame_id := fid, time_s := round6 ev.ts,
          event_type := ev.etype,
          x := some (intToStr (ev.x.getD (-1))), y := some (intToStr (ev.y.getD (-1))),
          dx := some (intToStr
            (match lp with | none => 0 | some p => ev.x.getD (-1) - p.1)),
          dy := some (intToStr
            (match lp with | none => 0 | some p => ev.y.getD (-1) - p.2)),
          mouse_button := ev.button, action := ev.action,
          scroll_dx := ev.scroll_dx.map intToStr,
          scroll_dy := ev.scroll_dy.map intToStr },
        some (ev.x.getD (-1), ev.y.getD (-1))) := by
  unfold writeEventRow
  rw [if_pos hm]

lemma writeEventRow_key (fid : Int) (lp : Option (Int × Int)) (ev : Event)
    (hm : ¬ pyStartswith ev.etype "mouse" = true)
    (hk : pyStartswith ev.etype "key" = true) :
    writeEventRow fid lp ev =
      ({ row_type := "event", frame_id := fid, time_s := round6 ev.ts,
          event_type := ev.etype,
          key := ev.key, key_code := ev.key_code.map intToStr,
          modifiers := ev.modifiers }, lp) := by
  unfold writeEventRow
  rw [if_neg hm, if_pos hk]

lemma writeEventRow_other (fid : Int) (lp : Option (Int × Int)) (ev : Event)
    (hm : ¬ pyStartswith ev.etype "mouse" = true)
    (hk : ¬ pyStartswith ev.etype "key" = true) :
    writeEventRow fid lp ev =
      ({ row_type := "event", frame_id := fid, time_s := round6 ev.ts,
          event_type := ev.etype }, lp) := by
  unfold writeEventRow
  rw [if_neg hm, if_neg hk]

lemma writeEventRow_snd_of_not_mouse (fid : Int) (lp : Option (Int × Int)) (ev : Event)
    (hm : ¬ pyStartswith ev.etype "mouse" = true) :
    (writeEventRow fid lp ev).2 = lp := by
  by_cases hk : pyStartswith ev.etype "key" = true
  · rw [writeEventRow_key fid lp ev hm hk]
  · rw [writeEventRow_other fid lp ev hm hk]

lemma eventRowsOf_append (a b : List Row) :
    eventRowsOf (a ++ b) = eventRowsOf a ++ eventRowsOf b := by
  simp [eventRowsOf, List.filter_append]

lemma eventRowsOf_frameRow (fid : Int) (t : ℚ) : eventRowsOf [frameRow fid t] = [] := rfl

lemma eventRowsOf_all_events {rows : List Row} (h : ∀ r ∈ rows, r.row_type = "event") :
    eventRowsOf rows = rows.map toEventRow := by
  unfold eventRowsOf
  rw [List.filter_eq_self.mpr]
  intro r hr
  simp [h r hr]

lemma writeEvents_times (fid : Int) :
    ∀ (evs : List Event) (lp : Option (Int × Int)),
      ((writeEvents fid lp evs).1).map (fun r => r.time_s) =
        evs.map (fun e => round6 e.ts) := by
  intro evs
  induction evs with
  | nil => intro lp; rfl
  | cons e es ih =>
    intro lp
    simp only [writeEvents, List.map_cons]
    rw [(writeEventRow_basic fid lp e).2.2.2, ih]

/-- The rows a batch write produces satisfy the mouse-delta invariant at the
batch's starting position, for any continuation that satisfies it at the
batch's final position. -/
lemma writeEvents_inv (fid : Int) :
    ∀ (evs : List Event) (lp : Option (Int × Int)) (K : List EventRow),
      mouseDeltaInv (writeEvents fid lp evs).2 K →
      mouseDeltaInv lp (((writeEvents fid lp evs).1).map toEventRow ++ K) := by
  intro evs
  induction evs with
  | nil => intro lp K h; exact h
  | cons e es ih =>
    intro lp K h
    simp only [writeEvents] at h ⊢
    by_cases hm : pyStartswith e.etype "mouse" = true
    · rw [writeEventRow_mouse fid lp e hm] at h ⊢
      simp only [List.map_cons, List.cons_append, mouseDeltaInv, toEventRow]
      rw [if_pos hm]
      exact ⟨e.x.getD (-1), e.y.getD (-1), rfl, rfl, rfl, rfl, ih _ _ h⟩
    · by_cases hk : pyStartswith e.etype "key" = true
      · rw [writeEventRow_key fid lp e hm hk] at h ⊢
        simp only [List.map_cons, List.cons_append, mouseDeltaInv, toEventRow]
        rw [if_neg hm]
        exact ih _ _ h
      · rw [writeEventRow_other fid lp e hm hk] at h ⊢
        simp only [List.map_cons, List.cons_append, mouseDeltaInv, toEventRow]
        rw [if_neg hm]
        exact ih _ _ h

/-- One tick preserves the state-level mouse-delta invariant. -/
lemma doTick_mouse_inv (s : RecState) (tk : Tick)
    (hs : ∀ K, mouseDeltaInv s.lastPos K →
      mouseDeltaInv none (eventRowsOf s.rows ++ K)) :
    ∀ K, mouseDeltaInv (doTick s tk).lastPos K →
      mouseDeltaInv none (eventRowsOf (doTick s tk).rows ++ K) := by
  intro K hK
  have hwr := writeEvents_inv s.frame_id
    (pop_all_upto tk.t (s.buffer ++ tk.arrivals)).1 s.lastPos K hK
  have hdone := hs _ hwr
  rw [doTick_rows, eventRowsOf_append, eventRowsOf_append, eventRowsOf_frameRow,
    eventRowsOf_all_events (fun r hr => (writeEvents_basic _ _ _ r hr).1)]
  simpa [List.append_assoc] using hdone

lemma foldl_mouse_inv (ticks : List Tick) :
    ∀ (s : RecState),
      (∀ K, mouseDeltaInv s.lastPos K → mouseDeltaInv none (eventRowsOf s.rows ++ K)) →
      ∀ K, mouseDeltaInv (ticks.foldl doTick s).lastPos K →
        mouseDeltaInv none (eventRowsOf (ticks.foldl doTick s).rows ++ K) := by
  induction ticks with
  | nil => intro s hs; exact hs
  | cons tk tks ih =>
    intro s hs
    rw [List.foldl_cons]
    exact ih (doTick s tk) (doTick_mouse_inv s tk hs)

/-- The full recorded log satisfies the session-wide mouse-delta invariant
with no preceding mouse event. -/
lemma record_mouseDeltaInv (t1 : ℚ) (ticks : List Tick) (tailArrivals : List Event) :
    mouseDeltaInv none (eventRowsOf (record t1 ticks tailArrivals)) := by
  have hInit : ∀ K, mouseDeltaInv (initState t1).lastPos K →
      mouseDeltaInv none (eventRowsOf (initState t1).rows ++ K) := fun K h => h
  have hF := foldl_mouse_inv ticks (initState t1) hInit
  have htail := writeEvents_inv (ticks.foldl doTick (initState t1)).frame_id
    ((drain_all ((ticks.foldl doTick (initState t1)).buffer ++ tailArrivals)).1)
    (ticks.foldl doTick (initState t1)).lastPos [] trivial
  have hdone := hF _ htail
  show mouseDeltaInv none (eventRowsOf
    ((ticks.foldl doTick (initState t1)).rows ++
      (writeEvents (ticks.foldl doTick (initState t1)).frame_id
        (ticks.foldl doTick (initState t1)).lastPos
        ((drain_all ((ticks.foldl doTick (initState t1)).buffer ++ tailArrivals)).1)).1))
  rw [eventRowsOf_append,
    eventRowsOf_all_events (fun r hr => (writeEvents_basic _ _ _ r hr).1)]
  simpa using hdone

/-- A fold of the mouse-delta check over rows satisfying the invariant at the
fold's running position adds no error and counts every mouse row. -/
lemma cmdFold_of_inv :
    ∀ (evs : List EventRow) (lp : Option (Int × Int)) (errs : List VErr) (n : Nat),
      mouseDeltaInv lp evs →
      ∃ lp2, evs.foldl cmdStep (errs, n, lp) = (errs, n + countMouse evs, lp2) := by
  intro evs
  induction evs with
  | nil => intro lp errs n h; exact ⟨lp, by simp [countMouse]⟩
  | cons ev rest ih =>
    intro lp errs n h
    rw [List.foldl_cons]
    by_cases hm : pyStartswith ev.etype "mouse" = true
    · simp only [mouseDeltaInv] at h
      rw [if_pos hm] at h
      obtain ⟨x, y, hx, hy, hdx, hdy, hrest⟩ := h
      have hstep : cmdStep (errs, n, lp) ev = (errs, n + 1, some (x, y)) := by
        unfold cmdStep
        rw [if_pos hm, hx, hy, hdx, hdy, cellInt_intToStr, cellInt_intToStr,
          cellInt_intToStr, cellInt_intToStr]
        simp
      rw [hstep]
      obtain ⟨lp2, hrec⟩ := ih (some (x, y)) errs (n + 1) hrest
      refine ⟨lp2, ?_⟩
      rw [hrec]
      have hcm : countMouse (ev :: rest) = countMouse rest + 1 := by
        simp [countMouse, hm]
      rw [hcm]
      have harith : n + 1 + countMouse rest = n + (countMouse rest + 1) := by omega
      rw [harith]
    · have hstep : cmdStep (errs, n, lp) ev = (errs, n, lp) := by
        unfold cmdStep
        rw [if_neg hm]
      rw [hstep]
      simp only [mouseDeltaInv] at h
      rw [if_neg hm] at h
      have hcm : countMouse (ev :: rest) = countMouse rest := by
        simp [countMouse, hm]
      rw [hcm]
      exact ih lp errs n h

lemma check_mouse_deltas_of_inv {evs : List EventRow} (h : mouseDeltaInv none evs) :
    check_mouse_deltas evs = ([], countMouse evs) := by
  obtain ⟨lp2, hfold⟩ := cmdFold_of_inv evs none [] 0 h
  unfold check_mouse_deltas
  rw [hfold]
  simp

/-- Batch-written event rows are sorted for the validator's `(fid, t)` sort
key: equal frame ids, timestamps non-decreasing (rounding is monotone). -/
lemma writeEvents_pairwise (fid : Int) (lp : Option (Int × Int)) (evs : List Event)
    (hevs : evs.Pairwise (fun a b => a.ts ≤ b.ts)) :
    (((writeEvents fid lp evs).1).map toEventRow).Pairwise evLe := by
  rw [List.pairwise_map]
  have h1 : ((evs.map (fun e => round6 e.ts)).Pairwise (· ≤ ·)) :=
    List.pairwise_map.mpr (hevs.imp (fun h => round6_mono h))
  have h2 : (((writeEvents fid lp evs).1.map (fun r => r.time_s)).Pairwise (· ≤ ·)) := by
    rw [writeEvents_times]
    exact h1
  have htimes := List.pairwise_map.mp h2
  refine htimes.imp_of_mem ?_
  intro r1 r2 hm1 hm2 hle
  right
  exact ⟨by
    rw [show (toEventRow r1).fid = r1.frame_id from rfl,
      show (toEventRow r2).fid = r2.frame_id from rfl,
      (writeEvents_basic fid lp evs r1 hm1).2, (writeEvents_basic fid lp evs r2 hm2).2],
    hle⟩

/-- One tick preserves the sortedness invariant: the remaining buffer plus all
future arrivals stay sorted, the written event rows stay sorted for the
`(fid, t)` key, and all written event rows carry ids below the committed one. -/
lemma doTick_sorted (s : RecState) (tk : Tick) (future : List Event)
    (ha : ((s.buffer ++ tk.arrivals) ++ future).Pairwise (fun a b => a.ts ≤ b.ts))
    (hb : (eventRowsOf s.rows).Pairwise evLe)
    (hc : ∀ r ∈ eventRowsOf s.rows, r.fid < s.frame_id) :
    (((doTick s tk).buffer ++ future).Pairwise (fun a b => a.ts ≤ b.ts)) ∧
    ((eventRowsOf (doTick s tk).rows).Pairwise evLe) ∧
    (∀ r ∈ eventRowsOf (doTick s tk).rows, r.fid < (doTick s tk).frame_id) := by
  have hbuf : (s.buffer ++ tk.arrivals).Pairwise (fun a b => a.ts ≤ b.ts) :=
    (List.pairwise_append.mp ha).1
  have hpop := pop_all_upto_sorted tk.t _ hbuf
  have hdrained : ((pop_all_upto tk.t (s.buffer ++ tk.arrivals)).1).Pairwise
      (fun a b => a.ts ≤ b.ts) := by
    rw [hpop]
    exact hbuf.filter _
  have hrest_sub : ((pop_all_upto tk.t (s.buffer ++ tk.arrivals)).2).Sublist
      (s.buffer ++ tk.arrivals) := by
    rw [hpop]
    exact List.filter_sublist _
  have hrows : eventRowsOf (doTick s tk).rows =
      eventRowsOf s.rows ++
        ((writeEvents s.frame_id s.lastPos
          (pop_all_upto tk.t (s.buffer ++ tk.arrivals)).1).1).map toEventRow := by
    rw [doTick_rows, eventRowsOf_append, eventRowsOf_append, eventRowsOf_frameRow,
      List.append_nil, eventRowsOf_all_events (fun r hr => (writeEvents_basic _ _ _ r hr).1)]
  refine ⟨?_, ?_, ?_⟩
  · exact ha.sublist (hrest_sub.append (List.Sublist.refl future))
  · rw [hrows, List.pairwise_append]
    refine ⟨hb, writeEvents_pairwise _ _ _ hdrained, ?_⟩
    intro a haa b hbb
    obtain ⟨r, hr, hrb⟩ := List.mem_map.mp hbb
    left
    rw [← hrb, show (toEventRow r).fid = r.frame_id from rfl,
      (writeEvents_basic _ _ _ r hr).2]
    exact hc a haa
  · rw [hrows]
    intro r hr
    rw [doTick_frame_id]
    rcases List.mem_append.mp hr with h | h
    · have := hc r h
      omega
    · obtain ⟨r2, hr2, hrb⟩ := List.mem_map.mp h
      rw [← hrb, show (toEventRow r2).fid = r2.frame_id from rfl,
        (writeEvents_basic _ _ _ r2 hr2).2]
      omega

lemma foldl_sorted (ticks : List Tick) :
    ∀ (s : RecState) (future : List Event),
      ((s.buffer ++ ((ticks.map (fun tk => tk.arrivals)).flatten ++ future)).Pairwise
        (fun a b => a.ts ≤ b.ts)) →
      ((eventRowsOf s.rows).Pairwise evLe) →
      (∀ r ∈ eventRowsOf s.rows, r.fid < s.frame_id) →
      ((((ticks.foldl doTick s).buffer ++ future).Pairwise (fun a b => a.ts ≤ b.ts)) ∧
        ((eventRowsOf (ticks.foldl doTick s).rows).Pairwise evLe) ∧
        (∀ r ∈ eventRowsOf (ticks.foldl doTick s).rows,
          r.fid < (ticks.foldl doTick s).frame_id)) := by
  induction ticks with
  | nil =>
    intro s future ha hb hc
    exact ⟨by simpa using ha, hb, hc⟩
  | cons tk tks ih =>
    intro s future ha hb hc
    rw [List.foldl_cons]
    have ha2 : ((s.buffer ++ tk.arrivals) ++
        ((tks.map (fun tk => tk.arrivals)).flatten ++ future)).Pairwise
        (fun a b => a.ts ≤ b.ts) := by
      simpa [List.append_assoc] using ha
    obtain ⟨h1, h2, h3⟩ :=
      doTick_sorted s tk ((tks.map (fun tk => tk.arrivals)).flatten ++ future) ha2 hb hc
    exact ih (doTick s tk) future h1 h2 h3

/-- With producers appending in timestamp order, the recorded event rows are
already sorted for the validator's `(fid, t)` sort key. -/
lemma record_events_sorted (t1 : ℚ) (ticks : List Tick) (tailArrivals : List Event)
    (h : (sessionEvents ticks tailArrivals).Pairwise (fun a b => a.ts ≤ b.ts)) :
    (eventRowsOf (record t1 ticks tailArrivals)).Pairwise evLe := by
  have h0 : (((initState t1).buffer ++
      ((ticks.map (fun tk => tk.arrivals)).flatten ++ tailArrivals)).Pairwise
      (fun a b => a.ts ≤ b.ts)) := by
    simpa [initState, sessionEvents] using h
  obtain ⟨ha, hb, hc⟩ := foldl_sorted ticks (initState t1) tailArrivals h0
    (by rw [show eventRowsOf (initState t1).rows = [] from rfl]; exact List.Pairwise.nil)
    (by rw [show eventRowsOf (initState t1).rows = [] from rfl]; simp)
  show (eventRowsOf ((ticks.foldl doTick (initState t1)).rows ++
    (writeEvents (ticks.foldl doTick (initState t1)).frame_id
      (ticks.foldl doTick (initState t1)).lastPos
      ((drain_all ((ticks.foldl doTick (initState t1)).buffer ++ tailArrivals)).1)).1)).Pairwise evLe
  rw [eventRowsOf_append,
    eventRowsOf_all_events (fun r hr => (writeEvents_basic _ _ _ r hr).1),
    List.pairwise_append]
  refine ⟨hb, writeEvents_pairwise _ _ _ ha, ?_⟩
  intro a haa b hbb
  obtain ⟨r, hr, hrb⟩ := List.mem_map.mp hbb
  left
  rw [← hrb, show (toEventRow r).fid = r.frame_id from rfl,
    (writeEvents_basic _ _ _ r hr).2]
  exact hc a haa

/-- On an already-sorted event-row list the validator's stable sort is the
identity, so `load_csv` returns the rows in log order. -/
lemma load_csv_events_sorted {rows : List Row} (h : (eventRowsOf rows).Pairwise evLe) :
    (load_csv rows).2 = eventRowsOf rows :=
  List.Sorted.insertionSort_eq h

/-- C4: for every session the recorder produces (with producers appending in
timestamp order), the event rows the validator loads satisfy the session-wide
mouse-delta invariant — each stored `(dx, dy)` is the coordinate difference
from the immediately preceding recorded mouse event across the whole session,
the first mouse event's delta being `(0, 0)` — and `check_mouse_deltas`
recomputes exactly the stored deltas: it reports no `M01` error and counts
every mouse event. -/
theorem c4_mouse_delta_roundtrip (t1 : ℚ) (ticks : List Tick) (tailArrivals : List Event)
    (h : (sessionEvents ticks tailArrivals).Pairwise (fun a b => a.ts ≤ b.ts)) :
    mouseDeltaInv none (load_csv (record t1 ticks tailArrivals)).2 ∧
    check_mouse_deltas (load_csv (record t1 ticks tailArrivals)).2 =
      ([], countMouse (load_csv (record t1 ticks tailArrivals)).2) := by
  have hsorted := record_events_sorted t1 ticks tailArrivals h
  rw [load_csv_events_sorted hsorted]
  exact ⟨record_mouseDeltaInv t1 ticks tailArrivals,
    check_mouse_deltas_of_inv (record_mouseDeltaInv t1 ticks tailArrivals)⟩

/-- Witness for C4 at a concrete one-tick session with two mouse moves and a
key press: the loaded event rows satisfy the delta invariant and the check
reproduces every stored delta with no `M01`. -/
theorem c4_mouse_delta_roundtrip_witness :
    ((sessionEvents [sampleTick] []).Pairwise (fun a b => a.ts ≤ b.ts)) ∧
    (mouseDeltaInv none (load_csv (record 0 [sampleTick] [])).2 ∧
      check_mouse_deltas (load_csv (record 0 [sampleTick] [])).2 =
        ([], countMouse (load_csv (record 0 [sampleTick] [])).2)) :=
  ⟨by decide, c4_mouse_delta_roundtrip 0 [sampleTick] [] (by decide)⟩

end Datagrab
